import Mathlib

/-!
# Verification of the aura manager (`AuraManager.py`) and item-use handler (`UseItemHandler.py`)

A shallow embedding of the aura registry of one game entity.  The Python
dictionary `active_auras` (insertion-ordered, unique integer keys) is modelled
as an association list `List (Nat × Aura)`; Python object mutation of an aura
held both by the dictionary and by a snapshot list is modelled by writing the
updated value back into the dictionary at the aura's own slot index.  All
out-calls to collaborators (Effect Handler, cast/cooldown subsystem, threat,
network replication) are recorded in an event log.
-/

set_option autoImplicit false

namespace AuraVerify

/-! ## Constants

Constants below mirror `utils.constants` enumerations referenced by the two
source files.  Those modules are not part of the sources under verification;
only distinctness of enum values and bit positions, and for the slot bands the
ordering, matter to the manager.  Band bounds are modelled from the spec:
three contiguous, non-overlapping index bands, beneficial then harmful then
passive. -/

/-- `AuraSlots.AURA_SLOT_POSITIVE_AURA_START`. Modelled from the spec: start of the beneficial band. -/
def AURA_SLOT_POSITIVE_AURA_START : Nat := 0

/-- `AuraSlots.AURA_SLOT_HARMFUL_AURA_START`. Modelled from the spec: start of the harmful band. -/
def AURA_SLOT_HARMFUL_AURA_START : Nat := 16

/-- `AuraSlots.AURA_SLOT_PASSIVE_AURA_START`. Modelled from the spec: start of the passive band. -/
def AURA_SLOT_PASSIVE_AURA_START : Nat := 40

/-- `AuraSlots.AURA_SLOT_END`. Modelled from the spec: one past the last slot. -/
def AURA_SLOT_END : Nat := 48

/-- `AuraTypes.SPELL_AURA_MOD_STEALTH`. -/
def SPELL_AURA_MOD_STEALTH : Nat := 16

/-- `AuraTypes.SPELL_AURA_MOD_SHAPESHIFT`. -/
def SPELL_AURA_MOD_SHAPESHIFT : Nat := 36

/-- `AuraTypes.SPELL_AURA_MOUNTED`. -/
def SPELL_AURA_MOUNTED : Nat := 78

/-- `SpellAuraInterruptFlags` bit values (distinct bits; exact values immaterial). -/
def AURA_INTERRUPT_FLAG_ENTER_COMBAT : Nat := 1
def AURA_INTERRUPT_FLAG_NOT_MOUNTED : Nat := 2
def AURA_INTERRUPT_FLAG_MOVE : Nat := 4
def AURA_INTERRUPT_FLAG_TURNING : Nat := 8
def AURA_INTERRUPT_FLAG_CAST : Nat := 16
def AURA_INTERRUPT_FLAG_NEGATIVE_SPELL : Nat := 32
def AURA_INTERRUPT_FLAG_DAMAGE : Nat := 64
def AURA_INTERRUPT_FLAG_NOT_ABOVEWATER : Nat := 128
def AURA_INTERRUPT_FLAG_NOT_UNDERWATER : Nat := 256

/-- `ProcFlags` bit values (distinct bits; exact values immaterial). -/
def PROC_FLAG_DEAL_COMBAT_DMG : Nat := 1
def PROC_FLAG_TAKE_COMBAT_DMG : Nat := 2
def PROC_FLAG_KILL : Nat := 4
def PROC_FLAG_HEARTBEAT : Nat := 8
def PROC_FLAG_DODGE : Nat := 16
def PROC_FLAG_PARRY : Nat := 32
def PROC_FLAG_BLOCK : Nat := 64
def PROC_FLAG_SWING : Nat := 128
def PROC_FLAG_SPELL_CAST : Nat := 256
def PROC_FLAG_SPELL_HIT : Nat := 512

/-- `SpellAttributes.SPELL_ATTR_ALLOW_CAST_WHILE_DEAD`. -/
def SPELL_ATTR_ALLOW_CAST_WHILE_DEAD : Nat := 1

/-- `SpellAttributes.SPELL_ATTR_PASSIVE`. -/
def SPELL_ATTR_PASSIVE : Nat := 64

/-- `SpellAttributes.SPELL_ATTR_CANT_CANCEL`. -/
def SPELL_ATTR_CANT_CANCEL : Nat := 2147483648

/-- `SpellAttributesEx.SPELL_ATTR_EX_AURA_UNIQUE`. -/
def SPELL_ATTR_EX_AURA_UNIQUE : Nat := 8192

/-- `UnitFlags.UNIT_MASK_MOUNTED`. -/
def UNIT_MASK_MOUNTED : Nat := 33554432

/-- `StandState.UNIT_SITTING`. -/
def UNIT_SITTING : Nat := 1

/-- `ObjectTypeFlags.TYPE_UNIT`. -/
def TYPE_UNIT : Nat := 8

/-- `ObjectTypeIds.ID_UNIT`. -/
def ID_UNIT : Nat := 3

/-- `ObjectTypeIds.ID_PLAYER`. -/
def ID_PLAYER : Nat := 4

/-- `InventorySlots.SLOT_INBACKPACK`. -/
def SLOT_INBACKPACK : Nat := 23

/-- Bitwise a AND (NOT b) on naturals (Python `a &= ~b` on non-negative ints):
clears from `a` every bit set in `b`. -/
def nat_and_not (a b : Nat) : Nat := a - Nat.land a b

/-! ## Data model -/

/-- A spell template row (`spell_entry`) as read by the manager:
`ID`, `Name_enUS`, `Attributes`, `AttributesEx`. -/
structure SpellEntry where
  ID : Nat
  Name_enUS : String
  Attributes : Nat
  AttributesEx : Nat
deriving DecidableEq

/-- The facets of `aura.source_spell` the manager reads: the template row,
`is_refreshment_spell()`, `generates_threat()` and `unlock_cooldown_on_trigger()`. -/
structure SourceSpell where
  spell_entry : SpellEntry
  refreshment : Bool
  threat_generating : Bool
  unlock_cooldown : Bool
deriving DecidableEq

/-- The facets of `aura.spell_effect` the manager reads or writes:
`effect_index`, `aura_type`, and the aura duration started by
`start_aura_duration` (remaining value, and the full value it resets to). -/
structure SpellEffect where
  effect_index : Nat
  aura_type : Nat
  remaining_duration : Int
  total_duration : Int
deriving DecidableEq

/-- An `AppliedAura` as seen by the manager.  `caster_guid` stands for the
caster reference (compared by identity in the source), and
`caster_object_type_mask` for `caster.object_type_mask`. -/
structure Aura where
  index : Nat
  spell_id : Nat
  caster_guid : Nat
  caster_object_type_mask : Nat
  harmful : Bool
  passive : Bool
  can_stack : Bool
  applied_stacks : Nat
  max_stacks : Nat
  interrupt_flags : Nat
  proc_flags : Nat
  proc_charges : Int
  has_duration : Bool
  spell_effect : SpellEffect
  source_spell : SourceSpell
deriving DecidableEq

/-- The environment the manager reads: the Spell Catalog
(`DbcDatabaseManager.SpellHolder.spell_get_rank_by_spell` and
`ExtendedSpellData.AuraSourceRestrictions.are_colliding_auras`) and the state
of the owning unit (`unit_mgr`). -/
structure Ctx where
  rank : SpellEntry → Int
  are_colliding : Nat → Nat → Bool
  in_combat : Bool
  unit_flags : Nat
  stand_state : Nat
  is_on_water : Bool
  type_id : Nat

/-- Out-calls to collaborators, recorded in order of invocation. -/
inductive Event where
  | effect_change (aura : Aura) (remove : Bool) (is_proc : Bool)
  | handle_mounted_remove
  | remove_cast (spell_id : Nat) (interrupted : Bool)
  | unlock_cooldown (spell_id : Nat)
  | add_threat (amount : Nat)
  | send_duration (index : Nat) (duration : Int)
  | write_field (aura : Aura) (clear : Bool)
  | write_flags (aura : Aura) (clear : Bool)
deriving DecidableEq

/-- The mutable state of one `AuraManager`: the `active_auras` dictionary and
the packed replication-flag accumulator `current_flags`. -/
structure AuraManagerState where
  active_auras : List (Nat × Aura)
  current_flags : Nat
deriving DecidableEq

/-- The state of a freshly constructed manager (`__init__`). -/
def initState : AuraManagerState := ⟨[], 0⟩

/-! ## Dictionary primitives (Python `dict` with `int` keys) -/

/-- `d.get(k)` / `k in d`. -/
def dictLookup : List (Nat × Aura) → Nat → Option Aura
  | [], _ => none
  | (k, v) :: rest, key => if k = key then some v else dictLookup rest key

/-- `d[key] = v`: replaces in place when the key exists, else appends. -/
def dictSet : List (Nat × Aura) → Nat → Aura → List (Nat × Aura)
  | [], key, v => [(key, v)]
  | (k, w) :: rest, key, v =>
    if k = key then (key, v) :: rest else (k, w) :: dictSet rest key v

/-- `d.pop(key, None)`'s effect on the dictionary. -/
def dictRemove : List (Nat × Aura) → Nat → List (Nat × Aura)
  | [], _ => []
  | (k, w) :: rest, key => if k = key then rest else (k, w) :: dictRemove rest key

/-- `d.values()` in insertion order. -/
def dictValues (d : List (Nat × Aura)) : List Aura := d.map Prod.snd

/-- `d.keys()` in insertion order. -/
def dictKeys (d : List (Nat × Aura)) : List Nat := d.map Prod.fst

/-! ## Slot allocator (`get_next_aura_index`) -/

/-- Lower bound of the slot band of `aura`'s category (the `min_index` chosen
in `get_next_aura_index`). -/
def band_min (aura : Aura) : Nat :=
  if aura.passive then AURA_SLOT_PASSIVE_AURA_START
  else if aura.harmful then AURA_SLOT_HARMFUL_AURA_START
  else AURA_SLOT_POSITIVE_AURA_START

/-- Upper bound (exclusive) of the slot band of `aura`'s category (the
`max_index` chosen in `get_next_aura_index`). -/
def band_max (aura : Aura) : Nat :=
  if aura.passive then AURA_SLOT_END
  else if aura.harmful then AURA_SLOT_PASSIVE_AURA_START
  else AURA_SLOT_HARMFUL_AURA_START

/-- The ascending scan `for i in range(min_index, max_index): if i not in
self.active_auras: return i`, with `fuel = max_index - min_index`. -/
def first_free (d : List (Nat × Aura)) : Nat → Nat → Option Nat
  | _, 0 => none
  | lo, fuel + 1 =>
    if (dictLookup d lo).isNone then some lo else first_free d (lo + 1) fuel

/-- `get_next_aura_index`: first free index of the aura's band, or the band's
first index when the band is exhausted. -/
def get_next_aura_index (s : AuraManagerState) (aura : Aura) : Nat :=
  match first_free s.active_auras (band_min aura) (band_max aura - band_min aura) with
  | some i => i
  | none => band_min aura

/-! ## Query helpers -/

/-- `get_auras_by_spell_id`. -/
def get_auras_by_spell_id (s : AuraManagerState) (spell_id : Nat) : List Aura :=
  (dictValues s.active_auras).filter (fun aura => aura.spell_id = spell_id)

/-- `get_auras_by_type`. -/
def get_auras_by_type (s : AuraManagerState) (aura_type : Nat) : List Aura :=
  (dictValues s.active_auras).filter (fun aura => aura.spell_effect.aura_type = aura_type)

/-- The per-aura test of `get_similar_applied_auras`: the candidate's effect
index, (unless all sources accepted) the candidate's caster, the candidate's
spell template ID, the same display name, and (unless all ranks accepted) the
same Spell Catalog rank. -/
def is_similar_to (c : Ctx) (aura : Aura) (accept_all_ranks accept_all_sources : Bool)
    (applied_aura : Aura) : Bool :=
  if applied_aura.spell_effect.effect_index ≠ aura.spell_effect.effect_index then false
  else if !accept_all_sources && aura.caster_guid ≠ applied_aura.caster_guid then false
  else if applied_aura.source_spell.spell_entry.ID ≠ aura.source_spell.spell_entry.ID then false
  else if applied_aura.source_spell.spell_entry.Name_enUS ≠
            aura.source_spell.spell_entry.Name_enUS ∨
          (c.rank applied_aura.source_spell.spell_entry ≠ c.rank aura.source_spell.spell_entry ∧
            !accept_all_ranks)
       then false
  else true

/-- `get_similar_applied_auras`. -/
def get_similar_applied_auras (c : Ctx) (s : AuraManagerState) (aura : Aura)
    (accept_all_ranks accept_all_sources : Bool) : List Aura :=
  (dictValues s.active_auras).filter (is_similar_to c aura accept_all_ranks accept_all_sources)

/-! ## Network sync -/

/-- `send_aura_duration`: unicast duration update, player-controlled entities only. -/
def send_aura_duration (c : Ctx) (aura : Aura) : List Event :=
  if c.type_id ≠ ID_PLAYER then []
  else [Event.send_duration aura.index aura.spell_effect.remaining_duration]

/-- `_write_aura_flag_to_unit`: OR a fixed 4-bit pattern into the packed flag
word on set, AND-clear it on removal. -/
def write_aura_flag_to_unit (s : AuraManagerState) (aura : Aura) (clear : Bool) :
    AuraManagerState × List Event :=
  let byte := Nat.shiftLeft (Nat.land aura.index 7) 2
  let flags :=
    if !clear then Nat.lor s.current_flags (Nat.shiftLeft 9 byte)
    else nat_and_not s.current_flags (Nat.shiftLeft 9 byte)
  ({ s with current_flags := flags }, [Event.write_flags aura clear])

/-- `write_aura_to_unit`: passive auras are never mirrored; a refresh sends
only the duration; otherwise the slot field and the flag word are written. -/
def write_aura_to_unit (c : Ctx) (s : AuraManagerState) (aura : Aura)
    (clear is_refresh send_dur : Bool) : AuraManagerState × List Event :=
  if aura.passive then (s, [])
  else
    let evs := if send_dur then send_aura_duration c aura else []
    if is_refresh then (s, evs)
    else
      let r := write_aura_flag_to_unit s aura clear
      (r.1, evs ++ [Event.write_field aura clear] ++ r.2)

/-! ## Removal (`remove_aura`) -/

/-- `remove_aura`: the Effect Handler reversal is invoked unconditionally;
then the aura is popped from the dictionary, returning early (with the
dictionary untouched) when the slot is already vacant; otherwise the linked
cast is removed, the cooldown optionally unlocked, and the replicated fields
cleared. -/
def remove_aura (c : Ctx) (canceled : Bool) (s : AuraManagerState) (aura : Aura) :
    AuraManagerState × List Event :=
  let evs := [Event.effect_change aura true false]
  if (dictLookup s.active_auras aura.index).isNone then (s, evs)
  else
    let s1 : AuraManagerState := { s with active_auras := dictRemove s.active_auras aura.index }
    let evs := evs ++ [Event.remove_cast aura.spell_id canceled]
    let evs :=
      if aura.source_spell.unlock_cooldown then evs ++ [Event.unlock_cooldown aura.spell_id]
      else evs
    let r := write_aura_to_unit c s1 aura true false true
    (r.1, evs ++ r.2)

/-! ## Acceptance (`can_apply_aura`) and collision resolution -/

/-- `can_apply_aura`: reject a duplicate shapeshift of the same spell, and
reject when a similar applied aura (same source, any rank) has a strictly
higher Spell Catalog rank. -/
def can_apply_aura (c : Ctx) (s : AuraManagerState) (aura : Aura) : Bool :=
  if aura.spell_effect.aura_type = SPELL_AURA_MOD_SHAPESHIFT ∧
     (get_auras_by_spell_id s aura.spell_id).length > 0 then false
  else
    match get_similar_applied_auras c s aura true false with
    | [] => true
    | similar_applied :: _ =>
      ¬(c.rank similar_applied.source_spell.spell_entry > c.rank aura.source_spell.spell_entry)

/-- The loop body of `remove_colliding_effects` over a snapshot of the active
auras: removes weaker similar auras (unique-attributed or same non-stacking
caster), exclusive-by-source collisions from the same caster, and competing
shapeshift forms. -/
def colliding_loop (c : Ctx) (aura : Aura) (new_aura_name : String) (new_aura_rank : Int) :
    List Aura → AuraManagerState → List Event → AuraManagerState × List Event
  | [], s, evs => (s, evs)
  | applied_aura :: rest, s, evs =>
    let applied_spell_entry := applied_aura.source_spell.spell_entry
    let applied_aura_name := applied_spell_entry.Name_enUS
    let applied_aura_rank := c.rank applied_spell_entry
    let is_similar_and_weaker :=
      applied_aura.spell_effect.effect_index = aura.spell_effect.effect_index ∧
      applied_aura_name = new_aura_name ∧ applied_aura_rank < new_aura_rank
    let are_exclusive_by_source := c.are_colliding aura.spell_id applied_aura.spell_id
    let is_unique :=
      Nat.land applied_spell_entry.AttributesEx SPELL_ATTR_EX_AURA_UNIQUE ≠ 0 ∨ ¬aura.harmful
    let is_stacking := applied_aura.can_stack
    let is_same_but_different_aura_index :=
      aura.spell_id = applied_aura.spell_id ∧
      aura.spell_effect.effect_index ≠ applied_aura.spell_effect.effect_index
    let casters_are_same := applied_aura.caster_guid = aura.caster_guid
    if is_similar_and_weaker ∧ (is_unique ∨ casters_are_same ∧ ¬is_stacking) ∨
       are_exclusive_by_source = true ∧ casters_are_same ∧ ¬is_same_but_different_aura_index then
      let r := remove_aura c false s applied_aura
      colliding_loop c aura new_aura_name new_aura_rank rest r.1 (evs ++ r.2)
    else if applied_aura.spell_effect.aura_type = SPELL_AURA_MOD_SHAPESHIFT ∧
            aura.spell_effect.aura_type = SPELL_AURA_MOD_SHAPESHIFT then
      let r := remove_aura c false s applied_aura
      colliding_loop c aura new_aura_name new_aura_rank rest r.1 (evs ++ r.2)
    else colliding_loop c aura new_aura_name new_aura_rank rest s evs

/-- `remove_colliding_effects`: the mount special case (candidate is a mounted
aura, unit already mounted by a non-aura source) removes the mount effect and
returns `false`; every other path resolves collisions by removal and returns
`true`. -/
def remove_colliding_effects (c : Ctx) (s : AuraManagerState) (aura : Aura) :
    Bool × AuraManagerState × List Event :=
  if aura.spell_effect.aura_type = SPELL_AURA_MOUNTED ∧
     Nat.land c.unit_flags UNIT_MASK_MOUNTED ≠ 0 ∧
     (get_auras_by_type s SPELL_AURA_MOUNTED).isEmpty then
    (false, s, [Event.handle_mounted_remove])
  else
    let aura_spell_template := aura.source_spell.spell_entry
    let r := colliding_loop c aura aura_spell_template.Name_enUS
      (c.rank aura_spell_template) (dictValues s.active_auras) s []
    (true, r.1, r.2)

/-! ## Interrupt evaluator (`check_aura_interrupts`) -/

/-- The caller-asserted event flags of one `check_aura_interrupts` invocation.
`has_cast_spell` stands for `cast_spell is not None` and `cast_breaks_stealth`
for `cast_spell.cast_breaks_stealth()`. -/
structure InterruptEvent where
  moved : Bool
  turned : Bool
  changed_stand_state : Bool
  negative_aura_applied : Bool
  received_damage : Bool
  has_cast_spell : Bool
  cast_breaks_stealth : Bool
deriving DecidableEq

/-- The `flag_cases` table, parameterised by the current value of the
cast-interrupt condition (which the stealth special case can overwrite with
`None`, i.e. false, for the remainder of the scan). -/
def interrupt_flag_cases (c : Ctx) (e : InterruptEvent) (cast_condition : Bool) :
    List (Nat × Bool) :=
  [(AURA_INTERRUPT_FLAG_ENTER_COMBAT, c.in_combat),
   (AURA_INTERRUPT_FLAG_NOT_MOUNTED, Nat.land c.unit_flags UNIT_MASK_MOUNTED ≠ 0),
   (AURA_INTERRUPT_FLAG_MOVE, e.moved),
   (AURA_INTERRUPT_FLAG_TURNING, e.turned),
   (AURA_INTERRUPT_FLAG_CAST, cast_condition),
   (AURA_INTERRUPT_FLAG_NEGATIVE_SPELL, e.negative_aura_applied),
   (AURA_INTERRUPT_FLAG_DAMAGE, e.received_damage),
   (AURA_INTERRUPT_FLAG_NOT_ABOVEWATER, c.is_on_water),
   (AURA_INTERRUPT_FLAG_NOT_UNDERWATER, !c.is_on_water)]

/-- The per-aura flag scan: each interrupt-flag bit present in both the aura's
mask and the asserted-true condition set calls `remove_aura` (even repeatedly
for the same aura). -/
def interrupt_flags_loop (c : Ctx) (aura : Aura) :
    List (Nat × Bool) → AuraManagerState → List Event → AuraManagerState × List Event
  | [], s, evs => (s, evs)
  | (flag, condition) :: rest, s, evs =>
    if Nat.land aura.interrupt_flags flag ≠ 0 ∧ condition = true then
      let r := remove_aura c false s aura
      interrupt_flags_loop c aura rest r.1 (evs ++ r.2)
    else interrupt_flags_loop c aura rest s evs

/-- The aura scan of `check_aura_interrupts`, threading the (persistently
maskable) cast condition: refreshment auras are removed on a stand-state
change away from sitting; a stealth aura whose triggering cast does not break
stealth overwrites the cast condition before the generic flag scan. -/
def interrupt_auras_loop (c : Ctx) (e : InterruptEvent) :
    List Aura → Bool → AuraManagerState → List Event → AuraManagerState × List Event
  | [], _, s, evs => (s, evs)
  | aura :: rest, cast_condition, s, evs =>
    if aura.source_spell.refreshment = true ∧ e.changed_stand_state = true ∧
       c.stand_state ≠ UNIT_SITTING then
      let r := remove_aura c false s aura
      interrupt_auras_loop c e rest cast_condition r.1 (evs ++ r.2)
    else
      let cast_condition :=
        if aura.spell_effect.aura_type = SPELL_AURA_MOD_STEALTH ∧
           e.has_cast_spell = true ∧ e.cast_breaks_stealth = false
        then false else cast_condition
      let r := interrupt_flags_loop c aura (interrupt_flag_cases c e cast_condition) s []
      interrupt_auras_loop c e rest cast_condition r.1 (evs ++ r.2)

/-- `check_aura_interrupts`. -/
def check_aura_interrupts (c : Ctx) (e : InterruptEvent) (s : AuraManagerState) :
    AuraManagerState × List Event :=
  interrupt_auras_loop c e (dictValues s.active_auras) e.has_cast_spell s []

/-! ## Proc evaluator (`check_aura_procs`) -/

/-- The combat event driving one `check_aura_procs` invocation.
`has_damage_info` / `has_involved_cast` stand for the corresponding arguments
being non-`None`. -/
structure ProcEvent where
  has_involved_cast : Bool
  cast_caster_is_self : Bool
  killed_unit : Bool
  has_damage_info : Bool
  damage_target_is_self : Bool
  total_damage : Nat
  proc_victim : Nat
  is_melee_swing : Bool
deriving DecidableEq

/-- `is_receiver`: the entity is the damage target, or not the caster of the
involved cast. -/
def proc_is_receiver (e : ProcEvent) : Bool :=
  (e.has_damage_info && e.damage_target_is_self) ||
    (e.has_involved_cast && !e.cast_caster_is_self)

/-- The `flag_cases` table of `check_aura_procs` (the heartbeat flag is never
satisfied here). -/
def proc_flag_cases (e : ProcEvent) : List (Nat × Bool) :=
  let is_receiver := proc_is_receiver e
  [(PROC_FLAG_DEAL_COMBAT_DMG, !is_receiver && e.has_damage_info && decide (e.total_damage > 0)),
   (PROC_FLAG_TAKE_COMBAT_DMG, is_receiver && e.has_damage_info && decide (e.total_damage > 0)),
   (PROC_FLAG_KILL, e.killed_unit),
   (PROC_FLAG_HEARTBEAT, false),
   (PROC_FLAG_DODGE, is_receiver && e.has_damage_info &&
      decide (Nat.land e.proc_victim PROC_FLAG_DODGE ≠ 0)),
   (PROC_FLAG_PARRY, is_receiver && e.has_damage_info &&
      decide (Nat.land e.proc_victim PROC_FLAG_PARRY ≠ 0)),
   (PROC_FLAG_BLOCK, is_receiver && e.has_damage_info &&
      decide (Nat.land e.proc_victim PROC_FLAG_BLOCK ≠ 0)),
   (PROC_FLAG_SWING, !is_receiver && e.is_melee_swing),
   (PROC_FLAG_SPELL_CAST, !is_receiver && e.has_involved_cast),
   (PROC_FLAG_SPELL_HIT, is_receiver && e.has_involved_cast)]

/-- `{ aura with proc_charges := n }`: the Python in-place mutation of the
charge counter. -/
def setCharges (aura : Aura) (n : Int) : Aura := { aura with proc_charges := n }

/-- The per-aura flag scan of `check_aura_procs`: for each proc-flag bit in
both masks whose condition holds while the charge counter is non-zero, the
counter is decremented, the Effect Handler invoked in proc mode, and the aura
removed when the counter reaches exactly 0.  Returns the final counter, a
removal marker, and the threaded state and log. -/
def proc_flags_loop (c : Ctx) (aura : Aura) :
    List (Nat × Bool) → Int → Bool → AuraManagerState → List Event →
      Int × Bool × AuraManagerState × List Event
  | [], charges, removed, s, evs => (charges, removed, s, evs)
  | (proc_flag, condition) :: rest, charges, removed, s, evs =>
    if Nat.land proc_flag aura.proc_flags ≠ 0 ∧ condition = true ∧ charges ≠ 0 then
      let charges := charges - 1
      let evs := evs ++ [Event.effect_change (setCharges aura charges) false true]
      if charges = 0 then
        let r := remove_aura c false s (setCharges aura charges)
        proc_flags_loop c aura rest charges true r.1 (evs ++ r.2)
      else proc_flags_loop c aura rest charges removed s evs
    else proc_flags_loop c aura rest charges removed s evs

/-- The aura scan of `check_aura_procs`.  The Python mutation of the shared
aura object is reflected by writing the decremented counter back into the
dictionary at the aura's slot when the aura was not removed. -/
def proc_auras_loop (c : Ctx) (cases : List (Nat × Bool)) :
    List Aura → AuraManagerState → List Event → AuraManagerState × List Event
  | [], s, evs => (s, evs)
  | aura :: rest, s, evs =>
    if aura.proc_flags = 0 then proc_auras_loop c cases rest s evs
    else
      let r := proc_flags_loop c aura cases aura.proc_charges false s []
      let s2 : AuraManagerState :=
        if r.2.1 then r.2.2.1
        else { r.2.2.1 with
                 active_auras := dictSet r.2.2.1.active_auras aura.index (setCharges aura r.1) }
      proc_auras_loop c cases rest s2 (evs ++ r.2.2.2)

/-- `check_aura_procs`. -/
def check_aura_procs (c : Ctx) (e : ProcEvent) (s : AuraManagerState) :
    AuraManagerState × List Event :=
  proc_auras_loop c (proc_flag_cases e) (dictValues s.active_auras) s []

/-! ## Application pipeline (`add_aura`) -/

/-- The interrupt event asserted by `add_aura` for a harmful application. -/
def negative_aura_event : InterruptEvent :=
  ⟨false, false, false, true, false, false, false⟩

/-- The stack increment of a refresh: add a stack when the candidate can
stack and the existing aura is not at its maximum. -/
def refresh_stack (aura similar_aura : Aura) : Aura :=
  if aura.can_stack = true ∧ similar_aura.applied_stacks < similar_aura.max_stacks
  then { similar_aura with applied_stacks := similar_aura.applied_stacks + 1 }
  else similar_aura

/-- The duration reset of a refresh (`start_aura_duration(overwrite=True)`):
the remaining duration restarts at the full duration. -/
def refresh_duration (a : Aura) : Aura :=
  { a with spell_effect :=
      { a.spell_effect with remaining_duration := a.spell_effect.total_duration } }

/-- The refresh branch of `add_aura`: the existing similar aura optionally
gains a stack (bounded by its maximum), its duration restarts at full, the
candidate is never inserted and only copies the existing entry's slot and
stack count, and only a duration update is sent. -/
def add_aura_refresh (c : Ctx) (s2 : AuraManagerState) (aura similar_aura : Aura) :
    AuraManagerState × Aura × List Event :=
  let similar_aura1 := refresh_duration (refresh_stack aura similar_aura)
  let s3 : AuraManagerState :=
    { s2 with active_auras := dictSet s2.active_auras similar_aura.index similar_aura1 }
  let aura1 :=
    { aura with applied_stacks := similar_aura1.applied_stacks, index := similar_aura.index }
  let r := write_aura_to_unit c s3 aura1 false true true
  (r.1, aura1, [Event.effect_change aura1 false false] ++ r.2)

/-- The insertion branch of `add_aura`: slot allocation and insertion of the
candidate, effect invocation and a full field write. -/
def add_aura_insert (c : Ctx) (s2 : AuraManagerState) (aura : Aura) :
    AuraManagerState × Aura × List Event :=
  let idx := get_next_aura_index s2 aura
  let aura1 := { aura with index := idx }
  let s3 : AuraManagerState :=
    { s2 with active_auras := dictSet s2.active_auras idx aura1 }
  let r := write_aura_to_unit c s3 aura1 false false true
  (r.1, aura1, [Event.effect_change aura1 false false] ++ r.2)

/-- The threat-and-interrupts step of `add_aura` for a harmful candidate. -/
def add_aura_harmful (c : Ctx) (s1 : AuraManagerState) (aura : Aura) :
    AuraManagerState × List Event :=
  if aura.harmful then
    let threat_evs :=
      if Nat.land aura.caster_object_type_mask TYPE_UNIT ≠ 0 ∧ c.type_id = ID_UNIT ∧
         aura.source_spell.threat_generating = true
      then [Event.add_threat 10] else []
    let r := check_aura_interrupts c negative_aura_event s1
    (r.1, threat_evs ++ r.2)
  else (s1, [])

/-- `add_aura`: acceptance check and collision resolution (short-circuit),
threat and negative-aura interrupts for harmful auras, refresh-vs-new, effect
invocation, network sync.  Returns the state, the (possibly mutated) candidate
and the event log. -/
def add_aura (c : Ctx) (s : AuraManagerState) (aura : Aura) :
    AuraManagerState × Aura × List Event :=
  if can_apply_aura c s aura = false then (s, aura, [])
  else
    let rc := remove_colliding_effects c s aura
    if rc.1 = false then (rc.2.1, aura, rc.2.2)
    else
      let rh := add_aura_harmful c rc.2.1 aura
      let r :=
        match get_similar_applied_auras c rh.1 aura false false with
        | similar_aura :: _ => add_aura_refresh c rh.1 aura similar_aura
        | [] => add_aura_insert c rh.1 aura
      (r.1, r.2.1, rc.2.2 ++ rh.2 ++ r.2.2)

/-! ## Periodic update and bulk removal -/

/-- One tick of an aura's own bookkeeping.  Modelled from the spec:
`AppliedAura.update` is not among the sources; the spec states the remaining
duration is mutated by the tick. -/
def aura_update (elapsed : Int) (aura : Aura) : Aura :=
  { aura with spell_effect :=
      { aura.spell_effect with
          remaining_duration := aura.spell_effect.remaining_duration - elapsed } }

/-- The scan of `update`: tick every aura (writing the mutation back), then
remove it when its duration has run out. -/
def update_loop (c : Ctx) (elapsed : Int) :
    List Aura → AuraManagerState → List Event → AuraManagerState × List Event
  | [], s, evs => (s, evs)
  | aura :: rest, s, evs =>
    let aura1 := aura_update elapsed aura
    let s1 : AuraManagerState :=
      { s with active_auras := dictSet s.active_auras aura.index aura1 }
    if aura1.has_duration = true ∧ aura1.spell_effect.remaining_duration ≤ 0 then
      let r := remove_aura c false s1 aura1
      update_loop c elapsed rest r.1 (evs ++ r.2)
    else update_loop c elapsed rest s1 evs

/-- `update`. -/
def update (c : Ctx) (elapsed : Int) (s : AuraManagerState) : AuraManagerState × List Event :=
  update_loop c elapsed (dictValues s.active_auras) s []

/-- Repeated single removal over a snapshot, guarded by a predicate: the
common shape of every bulk operation. -/
def remove_if_loop (c : Ctx) (canceled : Bool) (p : Aura → Bool) :
    List Aura → AuraManagerState → List Event → AuraManagerState × List Event
  | [], s, evs => (s, evs)
  | aura :: rest, s, evs =>
    if p aura then
      let r := remove_aura c canceled s aura
      remove_if_loop c canceled p rest r.1 (evs ++ r.2)
    else remove_if_loop c canceled p rest s evs

/-- `remove_auras_by_type`. -/
def remove_auras_by_type (c : Ctx) (aura_type : Nat) (s : AuraManagerState) :
    AuraManagerState × List Event :=
  remove_if_loop c false (fun aura => aura.spell_effect.aura_type = aura_type)
    (dictValues s.active_auras) s []

/-- `handle_death`: removes every aura not attributed castable-while-dead or
passive. -/
def handle_death (c : Ctx) (s : AuraManagerState) : AuraManagerState × List Event :=
  let persistent_flags := Nat.lor SPELL_ATTR_ALLOW_CAST_WHILE_DEAD SPELL_ATTR_PASSIVE
  remove_if_loop c false
    (fun aura => Nat.land aura.source_spell.spell_entry.Attributes persistent_flags = 0)
    (dictValues s.active_auras) s []

/-- `remove_harmful_auras_by_caster`. -/
def remove_harmful_auras_by_caster (c : Ctx) (caster_guid : Nat) (s : AuraManagerState) :
    AuraManagerState × List Event :=
  remove_if_loop c false (fun aura => aura.harmful && aura.caster_guid = caster_guid)
    (dictValues s.active_auras) s []

/-- `remove_all_auras`. -/
def remove_all_auras (c : Ctx) (s : AuraManagerState) : AuraManagerState × List Event :=
  remove_if_loop c false (fun _ => true) (dictValues s.active_auras) s []

/-- `cancel_auras_by_spell_id`. -/
def cancel_auras_by_spell_id (c : Ctx) (spell_id : Nat) (s : AuraManagerState) :
    AuraManagerState × List Event :=
  remove_if_loop c true (fun _ => true) (get_auras_by_spell_id s spell_id) s []

/-- The accumulator loop of `handle_player_cancel_aura_request` (breaks on the
first harmful or non-cancelable instance). -/
def cancel_check : List Aura → Bool → Bool → Bool × Bool
  | [], is_passive, can_remove => (is_passive, can_remove)
  | aura :: rest, is_passive, can_remove =>
    let is_passive := if aura.passive = false then false else is_passive
    if aura.harmful = true ∨
       Nat.land aura.source_spell.spell_entry.Attributes SPELL_ATTR_CANT_CANCEL ≠ 0 then
      (is_passive, false)
    else cancel_check rest is_passive can_remove

/-- `handle_player_cancel_aura_request`. -/
def handle_player_cancel_aura_request (c : Ctx) (spell_id : Nat) (s : AuraManagerState) :
    AuraManagerState × List Event :=
  let r := cancel_check (get_auras_by_spell_id s spell_id) true true
  if r.1 = true ∨ r.2 = false then (s, [])
  else cancel_auras_by_spell_id c spell_id s

/-- `build_update`: re-send every active aura's replicated fields without a
duration update. -/
def build_update (c : Ctx) (s : AuraManagerState) : AuraManagerState × List Event :=
  (dictValues s.active_auras).foldl
    (fun acc aura =>
      let r := write_aura_to_unit c acc.1 aura false false false
      (r.1, acc.2 ++ r.2))
    (s, [])

/-! ## Item-use handler (`UseItemHandler.handle`) -/

/-- The observable actions of the item-use handler. -/
inductive UseItemAction where
  | unpack (bag slot : Nat)
  | inventory_lookup (bag slot : Nat)
  | cast_attempt (item : Nat)
deriving DecidableEq

/-- `UseItemHandler.handle`: payloads shorter than 2 bytes are ignored; bag
`0xFF` is remapped to the backpack; a missing item ends the handling; the
result is always 0. -/
def use_item_handle (inventory : Nat → Nat → Option Nat) (data : List Nat) :
    Nat × List UseItemAction :=
  if data.length ≥ 2 then
    match data with
    | bag :: slot :: _ =>
      let acts := [UseItemAction.unpack bag slot]
      let bag := if bag = 255 then SLOT_INBACKPACK else bag
      let acts := acts ++ [UseItemAction.inventory_lookup bag slot]
      match inventory bag slot with
      | none => (0, acts)
      | some item => (0, acts ++ [UseItemAction.cast_attempt item])
    | _ => (0, [])
  else (0, [])

/-! ## Invariants, reachability and claim-support definitions -/

/-- The registry invariant on the raw dictionary: keys are pairwise distinct,
and every entry's aura records its own key as its slot index, which lies
within the slot band of the aura's category. -/
def DictInv (d : List (Nat × Aura)) : Prop :=
  (dictKeys d).Nodup ∧
  ∀ k aura, (k, aura) ∈ d → aura.index = k ∧ band_min aura ≤ k ∧ k < band_max aura

/-- The registry invariant of a manager state. -/
def SlotInvariant (s : AuraManagerState) : Prop := DictInv s.active_auras

/-- States reachable from a fresh manager through the mutating entry points of
the source class. -/
inductive Reachable : AuraManagerState → Prop where
  | init : Reachable initState
  | add (c : Ctx) (aura : Aura) {s : AuraManagerState} :
      Reachable s → Reachable (add_aura c s aura).1
  | tick (c : Ctx) (elapsed : Int) {s : AuraManagerState} :
      Reachable s → Reachable (update c elapsed s).1
  | interrupts (c : Ctx) (e : InterruptEvent) {s : AuraManagerState} :
      Reachable s → Reachable (check_aura_interrupts c e s).1
  | procs (c : Ctx) (e : ProcEvent) {s : AuraManagerState} :
      Reachable s → Reachable (check_aura_procs c e s).1
  | remove (c : Ctx) (canceled : Bool) (aura : Aura) {s : AuraManagerState} :
      Reachable s → Reachable (remove_aura c canceled s aura).1
  | by_type (c : Ctx) (aura_type : Nat) {s : AuraManagerState} :
      Reachable s → Reachable (remove_auras_by_type c aura_type s).1
  | death (c : Ctx) {s : AuraManagerState} :
      Reachable s → Reachable (handle_death c s).1
  | harmful_by_caster (c : Ctx) (guid : Nat) {s : AuraManagerState} :
      Reachable s → Reachable (remove_harmful_auras_by_caster c guid s).1
  | all (c : Ctx) {s : AuraManagerState} :
      Reachable s → Reachable (remove_all_auras c s).1
  | cancel (c : Ctx) (spell_id : Nat) {s : AuraManagerState} :
      Reachable s → Reachable (cancel_auras_by_spell_id c spell_id s).1
  | player_cancel (c : Ctx) (spell_id : Nat) {s : AuraManagerState} :
      Reachable s → Reachable (handle_player_cancel_aura_request c spell_id s).1
  | build (c : Ctx) {s : AuraManagerState} :
      Reachable s → Reachable (build_update c s).1

/-- The number of effect-reversal out-calls (`handle_aura_effect_change` with
`remove=True`) in an event log. -/
def countReversals (evs : List Event) : Nat :=
  evs.countP (fun ev =>
    match ev with
    | Event.effect_change _ remove _ => remove
    | _ => false)

/-- Out-calls that belong to aura teardown: effect reversal, mount-effect
removal, cast cancellation, cooldown unlock, or a clearing write of the
replicated fields. -/
def is_removal_event : Event → Bool
  | Event.effect_change _ remove _ => remove
  | Event.handle_mounted_remove => true
  | Event.remove_cast _ _ => true
  | Event.unlock_cooldown _ => true
  | Event.add_threat _ => false
  | Event.send_duration _ _ => false
  | Event.write_field _ clear => clear
  | Event.write_flags _ clear => clear

/-- Iterated proc evaluation with the same combat event. -/
def iterate_procs (c : Ctx) (e : ProcEvent) : Nat → AuraManagerState → AuraManagerState
  | 0, s => s
  | n + 1, s => (check_aura_procs c e (iterate_procs c e n s)).1

/-- How many entries of a flag-case table trigger for a given proc mask: the
number of table rows whose flag bit is present in the mask and whose condition
holds. -/
def trigger_count (cases : List (Nat × Bool)) (flags : Nat) : Nat :=
  cases.countP (fun fc => decide (Nat.land fc.1 flags ≠ 0) && fc.2)

/-- Iterated application of the same candidate aura, starting from the empty
registry. -/
def apply_times (c : Ctx) (aura : Aura) : Nat → AuraManagerState
  | 0 => initState
  | n + 1 => (add_aura c (apply_times c aura n) aura).1

/-- The registry entry produced by `n` stacked applications of `aura` into its
band's first slot. -/
def stacked (aura : Aura) (n : Nat) : Aura :=
  { aura with index := band_min aura, applied_stacks := n }

/-- An aura that the interrupt scan cannot remove through the refreshment
special case nor through any satisfied condition of the table with the cast
condition masked: only the (unmasked) cast condition can remove it. -/
def not_otherwise_interrupted (c : Ctx) (e : InterruptEvent) (aura : Aura) : Prop :=
  ¬(aura.source_spell.refreshment = true ∧ e.changed_stand_state = true ∧
      c.stand_state ≠ UNIT_SITTING) ∧
  ∀ fc ∈ interrupt_flag_cases c e false,
    ¬(Nat.land aura.interrupt_flags fc.1 ≠ 0 ∧ fc.2 = true)

/-- A neutral concrete environment: rank-1 catalog without exclusivity groups,
a player-controlled unit with no state flags set. -/
def ctx0 : Ctx :=
  { rank := fun _ => 1
    are_colliding := fun _ _ => false
    in_combat := false
    unit_flags := 0
    stand_state := 0
    is_on_water := false
    type_id := ID_PLAYER }

/-- A concrete beneficial, non-passive, non-stacking aura of spell 100. -/
def aura0 : Aura :=
  { index := 0
    spell_id := 100
    caster_guid := 7
    caster_object_type_mask := TYPE_UNIT
    harmful := false
    passive := false
    can_stack := false
    applied_stacks := 1
    max_stacks := 1
    interrupt_flags := 0
    proc_flags := 0
    proc_charges := -1
    has_duration := true
    spell_effect :=
      { effect_index := 0
        aura_type := 4
        remaining_duration := 5000
        total_duration := 5000 }
    source_spell :=
      { spell_entry := { ID := 100, Name_enUS := "A", Attributes := 0, AttributesEx := 0 }
        refreshment := false
        threat_generating := false
        unlock_cooldown := false } }

/-- A registry holding exactly `aura0` at its slot 0. -/
def s0 : AuraManagerState := ⟨[(0, aura0)], 0⟩

/-- A catalog in which the spell template 101 has rank 2 and every other
template rank 1. -/
def ctx3 : Ctx :=
  { ctx0 with rank := fun e => if e.ID = 101 then 2 else 1 }

/-- An applied aura of spell 101 ("A", rank 2 under `ctx3`), same caster and
effect index as `aura0` (spell 100, "A", rank 1). -/
def applied3 : Aura :=
  { aura0 with
      spell_id := 101
      source_spell :=
        { aura0.source_spell with
            spell_entry := { aura0.source_spell.spell_entry with ID := 101 } } }

/-- A registry holding the rank-2 aura `applied3` at slot 0. -/
def s3 : AuraManagerState := ⟨[(0, applied3)], 0⟩

/-- A mounted-unit environment. -/
def ctxM : Ctx := { ctx0 with unit_flags := UNIT_MASK_MOUNTED }

/-- A mounted-type candidate aura. -/
def auraM : Aura :=
  { aura0 with spell_effect := { aura0.spell_effect with aura_type := SPELL_AURA_MOUNTED } }

/-- An occupant (spell 900, name "B") of beneficial slot `i`, used to build a
fully occupied band. -/
def occupant (i : Nat) : Aura :=
  { aura0 with
      index := i
      spell_id := 900
      source_spell :=
        { aura0.source_spell with
            spell_entry :=
              { aura0.source_spell.spell_entry with ID := 900, Name_enUS := "B" } } }

/-- A registry whose beneficial band (slots 0–15) is fully occupied. -/
def fullState : AuraManagerState :=
  ⟨(List.range 16).map (fun i => (i, occupant i)), 0⟩

/-- A stackable variant of `aura0` (up to 5 stacks). -/
def auraStack : Aura := { aura0 with can_stack := true, max_stacks := 5 }

/-- A proc-capable variant of `aura0`: three charges on the kill proc flag. -/
def auraProc : Aura :=
  { aura0 with proc_flags := PROC_FLAG_KILL, proc_charges := 3 }

/-- A kill combat event. -/
def killEvent : ProcEvent :=
  { has_involved_cast := false
    cast_caster_is_self := false
    killed_unit := true
    has_damage_info := false
    damage_target_is_self := false
    total_damage := 0
    proc_victim := 0
    is_melee_swing := false }

/-- A stealth-type aura whose mask holds only the cast-interrupt flag. -/
def stealthAura : Aura :=
  { aura0 with
      spell_id := 300
      interrupt_flags := AURA_INTERRUPT_FLAG_CAST
      spell_effect := { aura0.spell_effect with aura_type := SPELL_AURA_MOD_STEALTH }
      source_spell :=
        { aura0.source_spell with
            spell_entry := { aura0.source_spell.spell_entry with ID := 300 } } }

/-- A non-stealth aura whose mask holds only the cast-interrupt flag. -/
def castBreakableAura : Aura :=
  { aura0 with
      index := 1
      spell_id := 301
      interrupt_flags := AURA_INTERRUPT_FLAG_CAST
      source_spell :=
        { aura0.source_spell with
            spell_entry := { aura0.source_spell.spell_entry with ID := 301 } } }

/-- Stealth aura scanned before the cast-breakable aura. -/
def s7 : AuraManagerState := ⟨[(0, stealthAura), (1, castBreakableAura)], 0⟩

/-- The cast-breakable aura alone. -/
def s7b : AuraManagerState := ⟨[(1, castBreakableAura)], 0⟩

/-- The value of the (persistently maskable) cast-interrupt condition after
the interrupt scan has passed over a list of auras: a stealth-type aura whose
triggering cast does not break stealth clears it for the remainder of the
scan; an aura taken by the refreshment special case leaves it untouched. -/
def cast_condition_after (c : Ctx) (e : InterruptEvent) : Bool → List Aura → Bool
  | cond, [] => cond
  | cond, aura :: rest =>
    if aura.source_spell.refreshment = true ∧ e.changed_stand_state = true ∧
       c.stand_state ≠ UNIT_SITTING then
      cast_condition_after c e cond rest
    else
      cast_condition_after c e
        (if aura.spell_effect.aura_type = SPELL_AURA_MOD_STEALTH ∧
            e.has_cast_spell = true ∧ e.cast_breaks_stealth = false
         then false else cond) rest

/-- An interrupt evaluation for a cast that is declared not to break stealth. -/
def castNoStealthBreakEvent : InterruptEvent :=
  { moved := false
    turned := false
    changed_stand_state := false
    negative_aura_applied := false
    received_damage := false
    has_cast_spell := true
    cast_breaks_stealth := false }

/-! ## Dictionary lemmas -/

@[simp]
theorem dictKeys_nil : dictKeys [] = [] := rfl

@[simp]
theorem dictKeys_cons (k : Nat) (v : Aura) (d : List (Nat × Aura)) :
    dictKeys ((k, v) :: d) = k :: dictKeys d := rfl

@[simp]
theorem dictValues_nil : dictValues [] = [] := rfl

@[simp]
theorem dictValues_cons (k : Nat) (v : Aura) (d : List (Nat × Aura)) :
    dictValues ((k, v) :: d) = v :: dictValues d := rfl

theorem dictValues_append (d e : List (Nat × Aura)) :
    dictValues (d ++ e) = dictValues d ++ dictValues e := by
  simp [dictValues]

theorem mem_dictSet (d : List (Nat × Aura)) (key : Nat) (v : Aura) (p : Nat × Aura) :
    p ∈ dictSet d key v → p = (key, v) ∨ p ∈ d := by
  induction d with
  | nil => intro h; simp [dictSet] at h; exact Or.inl h
  | cons q rest ih =>
    obtain ⟨k, w⟩ := q
    intro h
    by_cases hk : k = key
    · simp only [dictSet, if_pos hk] at h
      rcases List.mem_cons.mp h with h | h
      · exact Or.inl h
      · exact Or.inr (List.mem_cons_of_mem _ h)
    · simp only [dictSet, if_neg hk] at h
      rcases List.mem_cons.mp h with h | h
      · exact Or.inr (by simp [h])
      · rcases ih h with h' | h'
        · exact Or.inl h'
        · exact Or.inr (List.mem_cons_of_mem _ h')

theorem dictKeys_dictSet_of_mem (d : List (Nat × Aura)) (key : Nat) (v : Aura)
    (h : key ∈ dictKeys d) : dictKeys (dictSet d key v) = dictKeys d := by
  induction d with
  | nil => simp at h
  | cons q rest ih =>
    obtain ⟨k, w⟩ := q
    by_cases hk : k = key
    · simp [dictSet, hk]
    · have h' : key ∈ dictKeys rest := by
        rcases List.mem_cons.mp h with h | h
        · exact absurd h.symm hk
        · exact h
      simp [dictSet, hk, ih h']

theorem dictKeys_dictSet_of_not_mem (d : List (Nat × Aura)) (key : Nat) (v : Aura)
    (h : key ∉ dictKeys d) : dictKeys (dictSet d key v) = dictKeys d ++ [key] := by
  induction d with
  | nil => simp [dictSet]
  | cons q rest ih =>
    obtain ⟨k, w⟩ := q
    have hk : k ≠ key := by
      intro hk; exact h (by simp [hk])
    have h' : key ∉ dictKeys rest := by
      intro h'; exact h (by simp [h'])
    simp [dictSet, hk, ih h']

theorem nodup_dictKeys_dictSet (d : List (Nat × Aura)) (key : Nat) (v : Aura)
    (h : (dictKeys d).Nodup) : (dictKeys (dictSet d key v)).Nodup := by
  by_cases hmem : key ∈ dictKeys d
  · rw [dictKeys_dictSet_of_mem d key v hmem]; exact h
  · rw [dictKeys_dictSet_of_not_mem d key v hmem]
    rw [List.nodup_append]
    refine ⟨h, List.nodup_singleton key, ?_⟩
    intro a ha hb
    rcases List.mem_singleton.mp hb with rfl
    exact hmem ha

theorem mem_dictRemove (d : List (Nat × Aura)) (key : Nat) (p : Nat × Aura) :
    p ∈ dictRemove d key → p ∈ d := by
  induction d with
  | nil => intro h; simp [dictRemove] at h
  | cons q rest ih =>
    obtain ⟨k, w⟩ := q
    intro h
    by_cases hk : k = key
    · simp only [dictRemove, if_pos hk] at h
      exact List.mem_cons_of_mem _ h
    · simp only [dictRemove, if_neg hk] at h
      rcases List.mem_cons.mp h with h | h
      · simp [h]
      · exact List.mem_cons_of_mem _ (ih h)

theorem dictKeys_dictRemove_sublist (d : List (Nat × Aura)) (key : Nat) :
    (dictKeys (dictRemove d key)).Sublist (dictKeys d) := by
  induction d with
  | nil => simp [dictRemove]
  | cons q rest ih =>
    obtain ⟨k, w⟩ := q
    by_cases hk : k = key
    · simp only [dictRemove, if_pos hk, dictKeys_cons]
      exact (List.sublist_cons_self k (dictKeys rest))
    · simp only [dictRemove, if_neg hk, dictKeys_cons]
      exact ih.cons₂ k

theorem nodup_dictKeys_dictRemove (d : List (Nat × Aura)) (key : Nat)
    (h : (dictKeys d).Nodup) : (dictKeys (dictRemove d key)).Nodup :=
  h.sublist (dictKeys_dictRemove_sublist d key)

theorem dictLookup_dictRemove_self (d : List (Nat × Aura)) (key : Nat)
    (h : (dictKeys d).Nodup) : dictLookup (dictRemove d key) key = none := by
  induction d with
  | nil => simp [dictRemove, dictLookup]
  | cons q rest ih =>
    obtain ⟨k, w⟩ := q
    rw [dictKeys_cons, List.nodup_cons] at h
    by_cases hk : k = key
    · simp only [dictRemove, if_pos hk]
      subst hk
      clear ih
      induction rest with
      | nil => simp [dictLookup]
      | cons r rest2 ih2 =>
        obtain ⟨k2, w2⟩ := r
        have hk2 : k2 ≠ k := by
          intro hk2; exact h.1 (by simp [hk2])
        rw [dictLookup, if_neg hk2]
        exact ih2 ⟨fun hm => h.1 (by simp [hm]), h.2.of_cons⟩
    · simp only [dictRemove, if_neg hk, dictLookup, if_neg hk]
      exact ih h.2

theorem dictLookup_dictRemove_ne (d : List (Nat × Aura)) (key k' : Nat)
    (h : k' ≠ key) : dictLookup (dictRemove d key) k' = dictLookup d k' := by
  induction d with
  | nil => simp [dictRemove]
  | cons q rest ih =>
    obtain ⟨k, w⟩ := q
    by_cases hk : k = key
    · simp only [dictRemove, if_pos hk, dictLookup]
      rw [if_neg (by rw [hk]; exact fun hh => h hh.symm)]
    · simp only [dictRemove, if_neg hk, dictLookup]
      by_cases hk' : k = k'
      · simp [hk']
      · simp [hk', ih]

@[simp]
theorem dictLookup_dictSet_self (d : List (Nat × Aura)) (key : Nat) (v : Aura) :
    dictLookup (dictSet d key v) key = some v := by
  induction d with
  | nil => simp [dictSet, dictLookup]
  | cons q rest ih =>
    obtain ⟨k, w⟩ := q
    by_cases hk : k = key
    · simp [dictSet, hk, dictLookup]
    · simp [dictSet, hk, dictLookup, ih]

theorem dictLookup_dictSet_ne (d : List (Nat × Aura)) (key k' : Nat) (v : Aura)
    (h : k' ≠ key) : dictLookup (dictSet d key v) k' = dictLookup d k' := by
  induction d with
  | nil =>
    simp only [dictSet, dictLookup]
    rw [if_neg (fun hh => h hh.symm)]
  | cons q rest ih =>
    obtain ⟨k, w⟩ := q
    by_cases hk : k = key
    · simp only [dictSet, if_pos hk, dictLookup]
      rw [if_neg (fun hh => h hh.symm), if_neg (by rw [hk]; exact fun hh => h hh.symm)]
    · simp only [dictSet, if_neg hk, dictLookup]
      by_cases hk' : k = k'
      · simp [hk']
      · simp [hk', ih]

theorem mem_of_dictLookup_eq_some (d : List (Nat × Aura)) (k : Nat) (v : Aura)
    (h : dictLookup d k = some v) : (k, v) ∈ d := by
  induction d with
  | nil => simp [dictLookup] at h
  | cons q rest ih =>
    obtain ⟨k1, w⟩ := q
    by_cases hk : k1 = k
    · rw [dictLookup, if_pos hk] at h
      subst hk
      simp [Option.some_inj.mp h]
    · rw [dictLookup, if_neg hk] at h
      exact List.mem_cons_of_mem _ (ih h)

theorem dictLookup_eq_some_of_mem (d : List (Nat × Aura)) (k : Nat) (v : Aura) :
    (dictKeys d).Nodup → (k, v) ∈ d → dictLookup d k = some v := by
  induction d with
  | nil => intro _ h; simp at h
  | cons q rest ih =>
    obtain ⟨k1, w⟩ := q
    intro hnd h
    rw [dictKeys_cons, List.nodup_cons] at hnd
    rcases List.mem_cons.mp h with h | h
    · injection h.symm with h1 h2
      rw [dictLookup, if_pos h1, h2]
    · have hk : k1 ≠ k := by
        intro hk; subst hk
        exact hnd.1 (by simpa [dictKeys] using List.mem_map_of_mem Prod.fst h)
      rw [dictLookup, if_neg hk]
      exact ih hnd.2 h

theorem dictLookup_isSome_iff_mem_keys (d : List (Nat × Aura)) (k : Nat) :
    (dictLookup d k).isSome ↔ k ∈ dictKeys d := by
  induction d with
  | nil => simp [dictLookup]
  | cons q rest ih =>
    obtain ⟨k1, w⟩ := q
    by_cases hk : k1 = k
    · simp [dictLookup, hk]
    · simp [dictLookup, hk, ih, Ne.symm hk]

theorem mem_dictValues_iff (d : List (Nat × Aura)) (v : Aura) :
    v ∈ dictValues d ↔ ∃ k, (k, v) ∈ d := by
  constructor
  · intro h
    obtain ⟨p, hmem, rfl⟩ := List.mem_map.mp h
    exact ⟨p.1, hmem⟩
  · rintro ⟨k, hmem⟩
    exact List.mem_map.mpr ⟨(k, v), hmem, rfl⟩

/-! ## Allocator lemmas -/

theorem first_free_some (d : List (Nat × Aura)) :
    ∀ (n lo i : Nat), first_free d lo n = some i →
      lo ≤ i ∧ i < lo + n ∧ dictLookup d i = none ∧
        ∀ j, lo ≤ j → j < i → dictLookup d j ≠ none := by
  intro n
  induction n with
  | zero => intro lo i h; simp [first_free] at h
  | succ m ih =>
    intro lo i h
    rw [first_free] at h
    by_cases hfree : (dictLookup d lo).isNone
    · rw [if_pos hfree] at h
      injection h with h; subst h
      exact ⟨Nat.le_refl _, by omega, Option.isNone_iff_eq_none.mp hfree,
        fun j hj1 hj2 => absurd (Nat.lt_of_le_of_lt hj1 hj2) (Nat.lt_irrefl _)⟩
    · rw [if_neg hfree] at h
      obtain ⟨h1, h2, h3, h4⟩ := ih (lo + 1) i h
      refine ⟨by omega, by omega, h3, ?_⟩
      intro j hj1 hj2
      by_cases hj : j = lo
      · subst hj
        intro hnone
        exact hfree (Option.isNone_iff_eq_none.mpr hnone)
      · exact h4 j (by omega) hj2

theorem first_free_none (d : List (Nat × Aura)) :
    ∀ (n lo : Nat), first_free d lo n = none →
      ∀ j, lo ≤ j → j < lo + n → dictLookup d j ≠ none := by
  intro n
  induction n with
  | zero => intro lo _ j hj1 hj2; omega
  | succ m ih =>
    intro lo h j hj1 hj2
    rw [first_free] at h
    by_cases hfree : (dictLookup d lo).isNone
    · rw [if_pos hfree] at h; exact absurd h (by simp)
    · rw [if_neg hfree] at h
      by_cases hj : j = lo
      · subst hj
        intro hnone
        exact hfree (Option.isNone_iff_eq_none.mpr hnone)
      · exact ih (lo + 1) h j (by omega) (by omega)

theorem first_free_isSome (d : List (Nat × Aura)) :
    ∀ (n lo i : Nat), lo ≤ i → i < lo + n → dictLookup d i = none →
      (first_free d lo n).isSome := by
  intro n
  induction n with
  | zero => intro lo i h1 h2; omega
  | succ m ih =>
    intro lo i h1 h2 h3
    rw [first_free]
    by_cases hfree : (dictLookup d lo).isNone
    · rw [if_pos hfree]; rfl
    · rw [if_neg hfree]
      have hi : i ≠ lo := by
        intro hi; subst hi
        exact hfree (Option.isNone_iff_eq_none.mpr h3)
      exact ih (lo + 1) i (by omega) (by omega) h3

theorem band_min_lt_band_max (aura : Aura) : band_min aura < band_max aura := by
  unfold band_min band_max
  by_cases hp : aura.passive <;> by_cases hh : aura.harmful <;>
    simp [hp, hh, AURA_SLOT_POSITIVE_AURA_START, AURA_SLOT_HARMFUL_AURA_START,
      AURA_SLOT_PASSIVE_AURA_START, AURA_SLOT_END]

theorem get_next_aura_index_mem_band (s : AuraManagerState) (aura : Aura) :
    band_min aura ≤ get_next_aura_index s aura ∧
      get_next_aura_index s aura < band_max aura := by
  unfold get_next_aura_index
  cases hf : first_free s.active_auras (band_min aura) (band_max aura - band_min aura) with
  | none =>
    exact ⟨Nat.le_refl _, band_min_lt_band_max aura⟩
  | some i =>
    obtain ⟨h1, h2, _, _⟩ := first_free_some s.active_auras _ _ _ hf
    have hlt := band_min_lt_band_max aura
    exact ⟨h1, show i < band_max aura by omega⟩

/-! ## The slot invariant -/

theorem dictInv_remove (d : List (Nat × Aura)) (key : Nat) (h : DictInv d) :
    DictInv (dictRemove d key) :=
  ⟨nodup_dictKeys_dictRemove d key h.1,
   fun k aura hm => h.2 k aura (mem_dictRemove d key _ hm)⟩

theorem dictInv_set (d : List (Nat × Aura)) (key : Nat) (v : Aura) (h : DictInv d)
    (hv : v.index = key ∧ band_min v ≤ key ∧ key < band_max v) :
    DictInv (dictSet d key v) := by
  refine ⟨nodup_dictKeys_dictSet d key v h.1, ?_⟩
  intro k aura hm
  rcases mem_dictSet d key v _ hm with he | hm'
  · injection he with h1 h2
    subst h1; subst h2
    exact hv
  · exact h.2 k aura hm'

theorem write_aura_to_unit_auras (c : Ctx) (s : AuraManagerState) (aura : Aura)
    (clear is_refresh send_dur : Bool) :
    (write_aura_to_unit c s aura clear is_refresh send_dur).1.active_auras = s.active_auras := by
  unfold write_aura_to_unit write_aura_flag_to_unit
  split_ifs <;> rfl

theorem remove_aura_auras (c : Ctx) (canceled : Bool) (s : AuraManagerState) (aura : Aura) :
    (remove_aura c canceled s aura).1.active_auras =
      if (dictLookup s.active_auras aura.index).isNone then s.active_auras
      else dictRemove s.active_auras aura.index := by
  unfold remove_aura
  split_ifs
  · rfl
  all_goals simp [write_aura_to_unit_auras]

theorem slotInvariant_remove_aura (c : Ctx) (canceled : Bool) (s : AuraManagerState)
    (aura : Aura) (h : SlotInvariant s) : SlotInvariant (remove_aura c canceled s aura).1 := by
  unfold SlotInvariant
  rw [remove_aura_auras]
  split_ifs
  · exact h
  · exact dictInv_remove _ _ h

theorem slotInvariant_interrupt_flags_loop (c : Ctx) (aura : Aura) :
    ∀ (cases : List (Nat × Bool)) (s : AuraManagerState) (evs : List Event),
      SlotInvariant s → SlotInvariant (interrupt_flags_loop c aura cases s evs).1 := by
  intro cases
  induction cases with
  | nil => intro s evs h; exact h
  | cons fc rest ih =>
    obtain ⟨flag, condition⟩ := fc
    intro s evs h
    rw [interrupt_flags_loop]
    split_ifs with hc
    · exact ih _ _ (slotInvariant_remove_aura c false s aura h)
    · exact ih _ _ h

theorem slotInvariant_interrupt_auras_loop (c : Ctx) (e : InterruptEvent) :
    ∀ (auras : List Aura) (cast_condition : Bool) (s : AuraManagerState) (evs : List Event),
      SlotInvariant s → SlotInvariant (interrupt_auras_loop c e auras cast_condition s evs).1 := by
  intro auras
  induction auras with
  | nil => intro cond s evs h; exact h
  | cons aura rest ih =>
    intro cond s evs h
    rw [interrupt_auras_loop]
    split_ifs with h1
    · exact ih _ _ _ (slotInvariant_remove_aura c false s aura h)
    · exact ih _ _ _ (slotInvariant_interrupt_flags_loop c aura _ s [] h)
    · exact ih _ _ _ (slotInvariant_interrupt_flags_loop c aura _ s [] h)

theorem slotInvariant_check_aura_interrupts (c : Ctx) (e : InterruptEvent)
    (s : AuraManagerState) (h : SlotInvariant s) :
    SlotInvariant (check_aura_interrupts c e s).1 :=
  slotInvariant_interrupt_auras_loop c e _ _ s [] h

theorem slotInvariant_proc_flags_loop (c : Ctx) (aura : Aura) :
    ∀ (cases : List (Nat × Bool)) (charges : Int) (removed : Bool) (s : AuraManagerState)
      (evs : List Event), SlotInvariant s →
      SlotInvariant (proc_flags_loop c aura cases charges removed s evs).2.2.1 := by
  intro cases
  induction cases with
  | nil => intro charges removed s evs h; exact h
  | cons fc rest ih =>
    obtain ⟨proc_flag, condition⟩ := fc
    intro charges removed s evs h
    simp only [proc_flags_loop]
    split_ifs with h1 h2
    · exact ih _ _ _ _ (slotInvariant_remove_aura c false s _ h)
    · exact ih _ _ _ _ h
    · exact ih _ _ _ _ h

/-- In a state satisfying the invariant, every registered aura's own index is
inside its own band. -/
theorem mem_values_inband (s : AuraManagerState) (h : SlotInvariant s) :
    ∀ aura ∈ dictValues s.active_auras,
      band_min aura ≤ aura.index ∧ aura.index < band_max aura := by
  intro aura hm
  obtain ⟨k, hk⟩ := (mem_dictValues_iff _ _).mp hm
  obtain ⟨hi, hb1, hb2⟩ := h.2 k aura hk
  rw [hi]
  exact ⟨hb1, hb2⟩

theorem slotInvariant_proc_auras_loop (c : Ctx) (cases : List (Nat × Bool)) :
    ∀ (auras : List Aura) (s : AuraManagerState) (evs : List Event),
      SlotInvariant s →
      (∀ aura ∈ auras, band_min aura ≤ aura.index ∧ aura.index < band_max aura) →
      SlotInvariant (proc_auras_loop c cases auras s evs).1 := by
  intro auras
  induction auras with
  | nil => intro s evs h _; exact h
  | cons aura rest ih =>
    intro s evs h hband
    rw [proc_auras_loop]
    split_ifs with h1
    · exact ih _ _ h (fun a ha => hband a (List.mem_cons_of_mem _ ha))
    · have h2 := slotInvariant_proc_flags_loop c aura cases aura.proc_charges false s [] h
      refine ih _ _ ?_ (fun a ha => hband a (List.mem_cons_of_mem _ ha))
      by_cases hr : (proc_flags_loop c aura cases aura.proc_charges false s []).2.1
      · simp only [hr, if_true]
        exact h2
      · simp only [hr, if_false]
        refine dictInv_set _ _ _ h2 ?_
        exact ⟨rfl, (hband aura (List.mem_cons_self _ _)).1, (hband aura (List.mem_cons_self _ _)).2⟩

theorem slotInvariant_check_aura_procs (c : Ctx) (e : ProcEvent) (s : AuraManagerState)
    (h : SlotInvariant s) : SlotInvariant (check_aura_procs c e s).1 :=
  slotInvariant_proc_auras_loop c _ _ s [] h (mem_values_inband s h)

theorem slotInvariant_update_loop (c : Ctx) (elapsed : Int) :
    ∀ (auras : List Aura) (s : AuraManagerState) (evs : List Event),
      SlotInvariant s →
      (∀ aura ∈ auras, band_min aura ≤ aura.index ∧ aura.index < band_max aura) →
      SlotInvariant (update_loop c elapsed auras s evs).1 := by
  intro auras
  induction auras with
  | nil => intro s evs h _; exact h
  | cons aura rest ih =>
    intro s evs h hband
    have hset : DictInv (dictSet s.active_auras aura.index (aura_update elapsed aura)) := by
      refine dictInv_set _ _ _ h ?_
      exact ⟨rfl, (hband aura (List.mem_cons_self _ _)).1, (hband aura (List.mem_cons_self _ _)).2⟩
    rw [update_loop]
    split_ifs with h1
    · exact ih _ _ (slotInvariant_remove_aura c false _ _ hset)
        (fun a ha => hband a (List.mem_cons_of_mem _ ha))
    · exact ih _ _ hset (fun a ha => hband a (List.mem_cons_of_mem _ ha))

theorem slotInvariant_update (c : Ctx) (elapsed : Int) (s : AuraManagerState)
    (h : SlotInvariant s) : SlotInvariant (update c elapsed s).1 :=
  slotInvariant_update_loop c elapsed _ s [] h (mem_values_inband s h)

theorem slotInvariant_remove_if_loop (c : Ctx) (canceled : Bool) (p : Aura → Bool) :
    ∀ (auras : List Aura) (s : AuraManagerState) (evs : List Event),
      SlotInvariant s → SlotInvariant (remove_if_loop c canceled p auras s evs).1 := by
  intro auras
  induction auras with
  | nil => intro s evs h; exact h
  | cons aura rest ih =>
    intro s evs h
    rw [remove_if_loop]
    split_ifs with h1
    · exact ih _ _ (slotInvariant_remove_aura c canceled s aura h)
    · exact ih _ _ h

theorem slotInvariant_colliding_loop (c : Ctx) (aura : Aura) (nm : String) (rk : Int) :
    ∀ (applied : List Aura) (s : AuraManagerState) (evs : List Event),
      SlotInvariant s → SlotInvariant (colliding_loop c aura nm rk applied s evs).1 := by
  intro applied
  induction applied with
  | nil => intro s evs h; exact h
  | cons applied_aura rest ih =>
    intro s evs h
    rw [colliding_loop]
    split_ifs with h1 h2
    · exact ih _ _ (slotInvariant_remove_aura c false s applied_aura h)
    · exact ih _ _ (slotInvariant_remove_aura c false s applied_aura h)
    · exact ih _ _ h

theorem slotInvariant_remove_colliding_effects (c : Ctx) (s : AuraManagerState) (aura : Aura)
    (h : SlotInvariant s) : SlotInvariant (remove_colliding_effects c s aura).2.1 := by
  unfold remove_colliding_effects
  split_ifs
  · exact h
  · exact slotInvariant_colliding_loop c aura _ _ _ s [] h

theorem slotInvariant_add_aura_harmful (c : Ctx) (s1 : AuraManagerState) (aura : Aura)
    (h : SlotInvariant s1) : SlotInvariant (add_aura_harmful c s1 aura).1 := by
  unfold add_aura_harmful
  split_ifs
  · exact slotInvariant_check_aura_interrupts c negative_aura_event s1 h
  · exact slotInvariant_check_aura_interrupts c negative_aura_event s1 h
  · exact h

theorem mem_get_similar_applied_auras (c : Ctx) (s : AuraManagerState) (aura x : Aura)
    (accept_all_ranks accept_all_sources : Bool)
    (h : x ∈ get_similar_applied_auras c s aura accept_all_ranks accept_all_sources) :
    x ∈ dictValues s.active_auras :=
  (List.mem_filter.mp h).1

theorem refresh_index (aura s : Aura) :
    (refresh_duration (refresh_stack aura s)).index = s.index := by
  unfold refresh_duration refresh_stack
  split_ifs <;> rfl

theorem refresh_passive (aura s : Aura) :
    (refresh_duration (refresh_stack aura s)).passive = s.passive := by
  unfold refresh_duration refresh_stack
  split_ifs <;> rfl

theorem refresh_harmful (aura s : Aura) :
    (refresh_duration (refresh_stack aura s)).harmful = s.harmful := by
  unfold refresh_duration refresh_stack
  split_ifs <;> rfl

theorem band_min_refresh (aura s : Aura) :
    band_min (refresh_duration (refresh_stack aura s)) = band_min s := by
  unfold band_min
  rw [refresh_passive, refresh_harmful]

theorem band_max_refresh (aura s : Aura) :
    band_max (refresh_duration (refresh_stack aura s)) = band_max s := by
  unfold band_max
  rw [refresh_passive, refresh_harmful]

theorem slotInvariant_add_aura_refresh (c : Ctx) (s2 : AuraManagerState)
    (aura similar_aura : Aura) (h : SlotInvariant s2)
    (hmem : similar_aura ∈ dictValues s2.active_auras) :
    SlotInvariant (add_aura_refresh c s2 aura similar_aura).1 := by
  obtain ⟨k, hk⟩ := (mem_dictValues_iff _ _).mp hmem
  obtain ⟨hi, hb1, hb2⟩ := h.2 k similar_aura hk
  unfold SlotInvariant
  unfold add_aura_refresh
  rw [write_aura_to_unit_auras]
  refine dictInv_set _ _ _ h ?_
  refine ⟨refresh_index aura similar_aura, ?_, ?_⟩
  · rw [band_min_refresh, hi]
    exact hb1
  · rw [band_max_refresh, hi]
    exact hb2

theorem slotInvariant_add_aura_insert (c : Ctx) (s2 : AuraManagerState) (aura : Aura)
    (h : SlotInvariant s2) : SlotInvariant (add_aura_insert c s2 aura).1 := by
  unfold SlotInvariant
  unfold add_aura_insert
  rw [write_aura_to_unit_auras]
  refine dictInv_set _ _ _ h ?_
  obtain ⟨hb1, hb2⟩ := get_next_aura_index_mem_band s2 aura
  exact ⟨rfl, hb1, hb2⟩

theorem slotInvariant_add_aura (c : Ctx) (s : AuraManagerState) (aura : Aura)
    (h : SlotInvariant s) : SlotInvariant (add_aura c s aura).1 := by
  simp only [add_aura]
  split_ifs with h1 h2
  · exact h
  · exact slotInvariant_remove_colliding_effects c s aura h
  · have h3 := slotInvariant_add_aura_harmful c (remove_colliding_effects c s aura).2.1 aura
      (slotInvariant_remove_colliding_effects c s aura h)
    cases hsim : get_similar_applied_auras c
        (add_aura_harmful c (remove_colliding_effects c s aura).2.1 aura).1 aura false false with
    | nil =>
      exact slotInvariant_add_aura_insert c _ aura h3
    | cons similar_aura rest =>
      refine slotInvariant_add_aura_refresh c _ aura similar_aura h3 ?_
      exact mem_get_similar_applied_auras c _ aura similar_aura false false
        (hsim ▸ List.mem_cons_self similar_aura rest)

theorem build_update_auras (c : Ctx) (s : AuraManagerState) :
    (build_update c s).1.active_auras = s.active_auras := by
  unfold build_update
  have hgen : ∀ (l : List Aura) (acc : AuraManagerState × List Event),
      (l.foldl (fun acc aura =>
        let r := write_aura_to_unit c acc.1 aura false false false
        (r.1, acc.2 ++ r.2)) acc).1.active_auras = acc.1.active_auras := by
    intro l
    induction l with
    | nil => intro acc; rfl
    | cons aura rest ih =>
      intro acc
      rw [List.foldl_cons, ih]
      exact write_aura_to_unit_auras c acc.1 aura false false false
  exact hgen _ _

theorem slotInvariant_initState : SlotInvariant initState := by
  constructor
  · exact List.nodup_nil
  · intro k aura hm
    simp [initState] at hm

/-! ## Reachability -/

theorem slotInvariant_handle_player_cancel (c : Ctx) (spell_id : Nat) (s : AuraManagerState)
    (h : SlotInvariant s) : SlotInvariant (handle_player_cancel_aura_request c spell_id s).1 := by
  simp only [handle_player_cancel_aura_request]
  split_ifs
  · exact h
  · exact slotInvariant_remove_if_loop c true _ _ s [] h

theorem slotInvariant_reachable (s : AuraManagerState) (h : Reachable s) : SlotInvariant s := by
  induction h with
  | init => exact slotInvariant_initState
  | add c aura _ ih => exact slotInvariant_add_aura c _ aura ih
  | tick c elapsed _ ih => exact slotInvariant_update c elapsed _ ih
  | interrupts c e _ ih => exact slotInvariant_check_aura_interrupts c e _ ih
  | procs c e _ ih => exact slotInvariant_check_aura_procs c e _ ih
  | remove c canceled aura _ ih => exact slotInvariant_remove_aura c canceled _ aura ih
  | by_type c aura_type _ ih => exact slotInvariant_remove_if_loop c false _ _ _ [] ih
  | death c _ ih => exact slotInvariant_remove_if_loop c false _ _ _ [] ih
  | harmful_by_caster c guid _ ih => exact slotInvariant_remove_if_loop c false _ _ _ [] ih
  | all c _ ih => exact slotInvariant_remove_if_loop c false _ _ _ [] ih
  | cancel c spell_id _ ih => exact slotInvariant_remove_if_loop c true _ _ _ [] ih
  | player_cancel c spell_id _ ih => exact slotInvariant_handle_player_cancel c spell_id _ ih
  | build c _ ih =>
    unfold SlotInvariant
    rw [build_update_auras]
    exact ih

/-- C1: In every reachable state, every occupied slot key lies within the slot
band of its aura's category (passive, harmful, or beneficial), no two live
entries share a key (the keys are pairwise distinct), and removing a
registered aura vacates its slot immediately: after `remove_aura` the slot no
longer resolves to any aura, so the allocator treats it as free. -/
theorem C1_slot_invariant (s : AuraManagerState) (h : Reachable s) :
    SlotInvariant s ∧
      ∀ (c : Ctx) (canceled : Bool) (k : Nat) (aura : Aura), (k, aura) ∈ s.active_auras →
        dictLookup (remove_aura c canceled s aura).1.active_auras k = none := by
  have hinv := slotInvariant_reachable s h
  refine ⟨hinv, ?_⟩
  intro c canceled k aura hm
  obtain ⟨hidx, _, _⟩ := hinv.2 k aura hm
  have hlk : dictLookup s.active_auras aura.index = some aura := by
    rw [hidx]
    exact dictLookup_eq_some_of_mem _ _ _ hinv.1 hm
  rw [remove_aura_auras, hlk]
  simp only [Option.isNone_some, Bool.false_eq_true, if_false]
  rw [← hidx]
  exact dictLookup_dictRemove_self _ _ hinv.1

/-- Witness for C1 at the initial state. -/
theorem C1_slot_invariant_witness :
    SlotInvariant initState ∧
      ∀ (c : Ctx) (canceled : Bool) (k : Nat) (aura : Aura), (k, aura) ∈ initState.active_auras →
        dictLookup (remove_aura c canceled initState aura).1.active_auras k = none :=
  C1_slot_invariant initState Reachable.init

/-! ## C8: the slot allocator -/

/-- C8: `get_next_aura_index` returns the smallest index of the aura's
category band that is not an occupied key, searching the band in ascending
order; when the whole band is occupied it returns the band's first index
regardless of occupancy.  The three bands are contiguous, non-overlapping
ranges: beneficial, then harmful, then passive. -/
theorem C8_slot_allocator (s : AuraManagerState) (aura : Aura) :
    ((∃ i, band_min aura ≤ i ∧ i < band_max aura ∧ dictLookup s.active_auras i = none) →
      (band_min aura ≤ get_next_aura_index s aura ∧
       get_next_aura_index s aura < band_max aura ∧
       dictLookup s.active_auras (get_next_aura_index s aura) = none ∧
       ∀ j, band_min aura ≤ j → j < get_next_aura_index s aura →
         dictLookup s.active_auras j ≠ none)) ∧
    ((∀ i, band_min aura ≤ i → i < band_max aura → dictLookup s.active_auras i ≠ none) →
      get_next_aura_index s aura = band_min aura) ∧
    band_min aura < band_max aura ∧
    (aura.passive = true →
      band_min aura = AURA_SLOT_PASSIVE_AURA_START ∧ band_max aura = AURA_SLOT_END) ∧
    (aura.passive = false → aura.harmful = true →
      band_min aura = AURA_SLOT_HARMFUL_AURA_START ∧
      band_max aura = AURA_SLOT_PASSIVE_AURA_START) ∧
    (aura.passive = false → aura.harmful = false →
      band_min aura = AURA_SLOT_POSITIVE_AURA_START ∧
      band_max aura = AURA_SLOT_HARMFUL_AURA_START) ∧
    AURA_SLOT_POSITIVE_AURA_START < AURA_SLOT_HARMFUL_AURA_START ∧
    AURA_SLOT_HARMFUL_AURA_START < AURA_SLOT_PASSIVE_AURA_START ∧
    AURA_SLOT_PASSIVE_AURA_START < AURA_SLOT_END := by
  have hband := band_min_lt_band_max aura
  refine ⟨?_, ?_, hband, ?_, ?_, ?_, by decide, by decide, by decide⟩
  · rintro ⟨i, h1, h2, h3⟩
    have hsome : (first_free s.active_auras (band_min aura)
        (band_max aura - band_min aura)).isSome :=
      first_free_isSome _ _ _ i h1 (by omega) h3
    unfold get_next_aura_index
    cases hf : first_free s.active_auras (band_min aura) (band_max aura - band_min aura) with
    | none => rw [hf] at hsome; simp at hsome
    | some j =>
      obtain ⟨g1, g2, g3, g4⟩ := first_free_some _ _ _ _ hf
      exact ⟨g1, show j < band_max aura by omega, g3, g4⟩
  · intro hocc
    unfold get_next_aura_index
    cases hf : first_free s.active_auras (band_min aura) (band_max aura - band_min aura) with
    | none => rfl
    | some j =>
      obtain ⟨g1, g2, g3, _⟩ := first_free_some _ _ _ _ hf
      exact absurd g3 (hocc j g1 (by omega))
  · intro hp
    unfold band_min band_max
    rw [if_pos hp, if_pos hp]
    exact ⟨rfl, rfl⟩
  · intro hp hh
    have hp' : ¬aura.passive = true := by simp [hp]
    unfold band_min band_max
    rw [if_neg hp', if_pos hh, if_neg hp', if_pos hh]
    exact ⟨rfl, rfl⟩
  · intro hp hh
    have hp' : ¬aura.passive = true := by simp [hp]
    have hh' : ¬aura.harmful = true := by simp [hh]
    unfold band_min band_max
    rw [if_neg hp', if_neg hh', if_neg hp', if_neg hh']
    exact ⟨rfl, rfl⟩

/-- Witness for C8: with slot 0 of the beneficial band occupied, the allocator
picks slot 1; with the whole band occupied, it falls back to the band's first
index. -/
theorem C8_slot_allocator_witness :
    (band_min aura0 ≤ get_next_aura_index s0 aura0 ∧
     get_next_aura_index s0 aura0 < band_max aura0 ∧
     dictLookup s0.active_auras (get_next_aura_index s0 aura0) = none ∧
     ∀ j, band_min aura0 ≤ j → j < get_next_aura_index s0 aura0 →
       dictLookup s0.active_auras j ≠ none) ∧
    get_next_aura_index fullState aura0 = band_min aura0 := by
  constructor
  · exact (C8_slot_allocator s0 aura0).1 ⟨1, by decide, by decide, by decide⟩
  · refine (C8_slot_allocator fullState aura0).2.1 ?_
    intro i h1 h2
    have h2' : i < 16 := h2
    interval_cases i <;> decide

/-! ## C9: the item-use handler -/

/-- C9: the item-use handler always answers the neutral result 0; a payload
shorter than 2 bytes causes no unpacking, no inventory lookup and no cast
attempt; and when the inventory lookup finds no item, handling stops after the
lookup with no cast attempt. -/
theorem C9_use_item_guard (inventory : Nat → Nat → Option Nat) (data : List Nat) :
    (use_item_handle inventory data).1 = 0 ∧
    (data.length < 2 → (use_item_handle inventory data).2 = []) ∧
    (∀ bag slot rest, data = bag :: slot :: rest →
      inventory (if bag = 255 then SLOT_INBACKPACK else bag) slot = none →
      (use_item_handle inventory data).2 =
        [UseItemAction.unpack bag slot,
         UseItemAction.inventory_lookup (if bag = 255 then SLOT_INBACKPACK else bag) slot]) := by
  refine ⟨?_, ?_, ?_⟩
  · rcases data with _ | ⟨bag, _ | ⟨slot, rest⟩⟩
    · rfl
    · rfl
    · have hlen : (bag :: slot :: rest).length ≥ 2 := by simp
      simp only [use_item_handle, if_pos hlen]
      cases inventory (if bag = 255 then SLOT_INBACKPACK else bag) slot <;> rfl
  · intro hlt
    rcases data with _ | ⟨bag, _ | ⟨slot, rest⟩⟩
    · rfl
    · rfl
    · simp at hlt; omega
  · intro bag slot rest hdata hnone
    subst hdata
    have hlen : (bag :: slot :: rest).length ≥ 2 := by simp
    simp only [use_item_handle, if_pos hlen, hnone]
    rfl

/-- Witness for C9: a one-byte payload produces no actions; a two-byte payload
with an empty inventory stops after the (backpack-remapped) lookup. -/
theorem C9_use_item_guard_witness :
    (use_item_handle (fun _ _ => none) [5]).2 = [] ∧
    (use_item_handle (fun _ _ => none) [255, 3]).2 =
      [UseItemAction.unpack 255 3, UseItemAction.inventory_lookup SLOT_INBACKPACK 3] := by
  constructor
  · exact (C9_use_item_guard (fun _ _ => none) [5]).2.1 (by decide)
  · have h := (C9_use_item_guard (fun _ _ => none) [255, 3]).2.2 255 3 [] rfl rfl
    simpa using h

/-! ## C2: removal of an already-absent aura -/

/-- C2 counterexample: removing the same registered aura twice invokes the
Effect Handler's effect reversal twice — once per call — not exactly once as
claimed, because `remove_aura` calls the handler before checking the
registry. -/
theorem C2_counterexample_double_reversal :
    countReversals ((remove_aura ctx0 false s0 aura0).2 ++
        (remove_aura ctx0 false (remove_aura ctx0 false s0 aura0).1 aura0).2) = 2 ∧
    countReversals ((remove_aura ctx0 false s0 aura0).2 ++
        (remove_aura ctx0 false (remove_aura ctx0 false s0 aura0).1 aura0).2) ≠ 1 := by
  decide

/-- C2 (amended): removing an aura whose slot is already vacant first invokes
one effect reversal on the Effect Handler and then returns early: the registry
and replication state are unchanged and no cast cancellation, cooldown unlock
or replication-field clear happens, so a double removal produces exactly two
effect-reversal invocations with all other teardown only in the first. -/
theorem C2_amended_absent_removal (c : Ctx) (canceled : Bool) (s : AuraManagerState)
    (aura : Aura) (h : dictLookup s.active_auras aura.index = none) :
    remove_aura c canceled s aura = (s, [Event.effect_change aura true false]) := by
  unfold remove_aura
  rw [h]
  rfl

/-- Witness for the amended C2 at the empty registry. -/
theorem C2_amended_absent_removal_witness :
    remove_aura ctx0 false initState aura0 = (initState, [Event.effect_change aura0 true false]) :=
  C2_amended_absent_removal ctx0 false initState aura0 (by decide)

/-! ## C3: rank-priority rejection -/

/-- C3 (evaluation at the failing input): the registry holds `applied3`
(spell 101, display name "A", effect index 0, rank 2) and the candidate is
`aura0` (spell 100, display name "A", effect index 0, rank 1) from the same
caster.  The claim requires the lower-rank candidate to be rejected with the
registry unchanged; the code accepts it (`can_apply_aura` returns true,
because `get_similar_applied_auras` admits only auras with the candidate's own
spell template ID, and a rank lookup is a function of the template, so a
strictly-higher-rank similar aura can never be seen) and inserts it at slot 1. -/
theorem C3_rank_rejection_never_fires :
    ctx3.rank applied3.source_spell.spell_entry > ctx3.rank aura0.source_spell.spell_entry ∧
    applied3.spell_effect.effect_index = aura0.spell_effect.effect_index ∧
    applied3.source_spell.spell_entry.Name_enUS = aura0.source_spell.spell_entry.Name_enUS ∧
    applied3.caster_guid = aura0.caster_guid ∧
    (0, applied3) ∈ s3.active_auras ∧
    can_apply_aura ctx3 s3 aura0 = true ∧
    (add_aura ctx3 s3 aura0).1.active_auras =
      [(0, applied3), (1, { aura0 with index := 1 })] ∧
    (add_aura ctx3 s3 aura0).1.active_auras ≠ s3.active_auras := by
  decide

/-! ## C6: the mount-dismount special case -/

/-- C6: when the candidate is a mounted-type aura, the unit carries the
mounted flag, and no mounted-type aura is registered, collision resolution
emits exactly the mount-effect removal and rejects the candidate, so
`add_aura` leaves the registry unchanged and inserts nothing; moreover a
`false` return of collision resolution implies exactly this mount-dismount
situation. -/
theorem C6_mount_dismount (c : Ctx) (s : AuraManagerState) (aura : Aura)
    (htype : aura.spell_effect.aura_type = SPELL_AURA_MOUNTED)
    (hmounted : Nat.land c.unit_flags UNIT_MASK_MOUNTED ≠ 0)
    (hnomount : get_auras_by_type s SPELL_AURA_MOUNTED = []) :
    remove_colliding_effects c s aura = (false, s, [Event.handle_mounted_remove]) ∧
    (can_apply_aura c s aura = true →
      add_aura c s aura = (s, aura, [Event.handle_mounted_remove])) ∧
    ∀ (c2 : Ctx) (s2 : AuraManagerState) (a2 : Aura),
      (remove_colliding_effects c2 s2 a2).1 = false →
        a2.spell_effect.aura_type = SPELL_AURA_MOUNTED ∧
        Nat.land c2.unit_flags UNIT_MASK_MOUNTED ≠ 0 ∧
        (get_auras_by_type s2 SPELL_AURA_MOUNTED).isEmpty = true := by
  have hrc : remove_colliding_effects c s aura = (false, s, [Event.handle_mounted_remove]) := by
    unfold remove_colliding_effects
    rw [if_pos ⟨htype, hmounted, by rw [hnomount]; rfl⟩]
  refine ⟨hrc, ?_, ?_⟩
  · intro hcan
    simp [add_aura, hcan, hrc]
  · intro c2 s2 a2 hfalse
    unfold remove_colliding_effects at hfalse
    split_ifs at hfalse with hcond
    exact ⟨hcond.1, hcond.2.1, hcond.2.2⟩

/-- Witness for C6: a mounted-type candidate against a mounted unit with an
empty registry is rejected after removing the mount effect. -/
theorem C6_mount_dismount_witness :
    remove_colliding_effects ctxM initState auraM =
      (false, initState, [Event.handle_mounted_remove]) ∧
    add_aura ctxM initState auraM = (initState, auraM, [Event.handle_mounted_remove]) := by
  have h := C6_mount_dismount ctxM initState auraM rfl (by decide) rfl
  exact ⟨h.1, h.2.1 (by decide)⟩

/-! ## C10: silent overwrite on band exhaustion -/

theorem write_aura_to_unit_no_removal (c : Ctx) (s : AuraManagerState) (aura : Aura)
    (is_refresh send_dur : Bool) :
    ((write_aura_to_unit c s aura false is_refresh send_dur).2).all
      (fun ev => !is_removal_event ev) = true := by
  unfold write_aura_to_unit write_aura_flag_to_unit send_aura_duration
  split_ifs <;> rfl

/-- C10: when the candidate's band is fully occupied and the application is a
plain insertion (no refresh, no collision removals, not harmful), `add_aura`
overwrites the registry entry at the band's first index, and no teardown
out-call happens during the whole application: no effect reversal, no
mount-effect removal, no cast cancellation, no cooldown unlock, and no
clearing write of the replicated fields — the displaced aura is dropped
silently. -/
theorem C10_band_exhaustion_overwrite (c : Ctx) (s : AuraManagerState) (aura : Aura)
    (hfull : ∀ i, band_min aura ≤ i → i < band_max aura → dictLookup s.active_auras i ≠ none)
    (hcan : can_apply_aura c s aura = true)
    (hcoll : remove_colliding_effects c s aura = (true, s, []))
    (hharm : aura.harmful = false)
    (hsim : get_similar_applied_auras c s aura false false = []) :
    (add_aura c s aura).1.active_auras =
      dictSet s.active_auras (band_min aura) { aura with index := band_min aura } ∧
    ∀ ev ∈ (add_aura c s aura).2.2, is_removal_event ev = false := by
  have hnext : get_next_aura_index s aura = band_min aura := by
    unfold get_next_aura_index
    cases hf : first_free s.active_auras (band_min aura) (band_max aura - band_min aura) with
    | none => rfl
    | some i =>
      obtain ⟨h1, h2, h3, _⟩ := first_free_some _ _ _ _ hf
      have hb := band_min_lt_band_max aura
      exact absurd h3 (hfull i h1 (by omega))
  have hharm' : add_aura_harmful c s aura = (s, []) := by
    unfold add_aura_harmful
    rw [if_neg (by simp [hharm])]
  constructor
  · simp only [add_aura, hcan, hcoll, hharm', hsim]
    simp [add_aura_insert, write_aura_to_unit_auras, hnext]
  · intro ev hev
    simp only [add_aura, hcan, hcoll, hharm', hsim, add_aura_insert, List.nil_append] at hev
    rcases List.mem_append.mp hev with h | h
    · rcases List.mem_singleton.mp h with rfl
      rfl
    · have hw := List.all_eq_true.mp (write_aura_to_unit_no_removal c _ _ _ _) ev h
      simpa using hw

/-- Witness for C10: insertion into the fully occupied beneficial band
overwrites slot 0 and performs no teardown out-call. -/
theorem C10_band_exhaustion_overwrite_witness :
    (add_aura ctx0 fullState aura0).1.active_auras =
      dictSet fullState.active_auras (band_min aura0) { aura0 with index := band_min aura0 } ∧
    ∀ ev ∈ (add_aura ctx0 fullState aura0).2.2, is_removal_event ev = false := by
  refine C10_band_exhaustion_overwrite ctx0 fullState aura0 ?_ (by decide) (by decide) rfl
    (by decide)
  intro i h1 h2
  have h2' : i < 16 := h2
  interval_cases i <;> decide

/-! ## C5: stacking and refresh -/

@[simp]
theorem stacked_spell_effect (aura : Aura) (n : Nat) :
    (stacked aura n).spell_effect = aura.spell_effect := rfl

@[simp]
theorem stacked_source_spell (aura : Aura) (n : Nat) :
    (stacked aura n).source_spell = aura.source_spell := rfl

@[simp]
theorem stacked_caster_guid (aura : Aura) (n : Nat) :
    (stacked aura n).caster_guid = aura.caster_guid := rfl

@[simp]
theorem stacked_spell_id (aura : Aura) (n : Nat) :
    (stacked aura n).spell_id = aura.spell_id := rfl

@[simp]
theorem stacked_index (aura : Aura) (n : Nat) :
    (stacked aura n).index = band_min aura := rfl

@[simp]
theorem stacked_applied_stacks (aura : Aura) (n : Nat) :
    (stacked aura n).applied_stacks = n := rfl

@[simp]
theorem stacked_max_stacks (aura : Aura) (n : Nat) :
    (stacked aura n).max_stacks = aura.max_stacks := rfl

@[simp]
theorem stacked_interrupt_flags (aura : Aura) (n : Nat) :
    (stacked aura n).interrupt_flags = aura.interrupt_flags := rfl

theorem is_similar_to_stacked (c : Ctx) (aura : Aura) (n : Nat) (accept_all_ranks : Bool) :
    is_similar_to c aura accept_all_ranks false (stacked aura n) = true := by
  unfold is_similar_to
  simp

theorem interrupt_flags_loop_zero (c : Ctx) (a : Aura) (h : a.interrupt_flags = 0) :
    ∀ (cases : List (Nat × Bool)) (s : AuraManagerState) (evs : List Event),
      interrupt_flags_loop c a cases s evs = (s, evs) := by
  intro cases
  induction cases with
  | nil => intro s evs; rfl
  | cons fc rest ih =>
    obtain ⟨flag, condition⟩ := fc
    intro s evs
    rw [interrupt_flags_loop, if_neg, ih]
    rintro ⟨hl, _⟩
    exact hl (by rw [h]; simp [Nat.land])

theorem interrupt_auras_loop_inert (c : Ctx) (e : InterruptEvent)
    (he : e.changed_stand_state = false) :
    ∀ (auras : List Aura) (cast_condition : Bool) (s : AuraManagerState) (evs : List Event),
      (∀ a ∈ auras, a.interrupt_flags = 0) →
      interrupt_auras_loop c e auras cast_condition s evs = (s, evs) := by
  intro auras
  induction auras with
  | nil => intro cond s evs _; rfl
  | cons a rest ih =>
    intro cond s evs hall
    rw [interrupt_auras_loop]
    split_ifs with h1
    · exfalso
      have h2 := h1.2.1
      rw [he] at h2
      exact Bool.false_ne_true h2
    all_goals
      simp only []
      rw [interrupt_flags_loop_zero c a (hall a (List.mem_cons_self a rest)),
        ih _ _ _ (fun b hb => hall b (List.mem_cons_of_mem _ hb))]
      simp

theorem write_aura_to_unit_refresh_state (c : Ctx) (s : AuraManagerState) (aura : Aura)
    (clear send_dur : Bool) : (write_aura_to_unit c s aura clear true send_dur).1 = s := by
  unfold write_aura_to_unit
  split_ifs <;> first | rfl | (exfalso; simp_all)

theorem get_similar_stacked_singleton (c : Ctx) (aura : Aura) (F n : Nat)
    (accept_all_ranks : Bool) :
    get_similar_applied_auras c ⟨[(band_min aura, stacked aura n)], F⟩ aura
      accept_all_ranks false = [stacked aura n] := by
  unfold get_similar_applied_auras
  simp [is_similar_to_stacked c aura n accept_all_ranks]

theorem can_apply_aura_stacked (c : Ctx) (aura : Aura) (F n : Nat)
    (hshape : aura.spell_effect.aura_type ≠ SPELL_AURA_MOD_SHAPESHIFT) :
    can_apply_aura c ⟨[(band_min aura, stacked aura n)], F⟩ aura = true := by
  unfold can_apply_aura
  rw [if_neg (fun h => hshape h.1), get_similar_stacked_singleton]
  simp

theorem remove_colliding_effects_stacked (c : Ctx) (aura : Aura) (F n : Nat)
    (hmount : aura.spell_effect.aura_type ≠ SPELL_AURA_MOUNTED)
    (hexcl : c.are_colliding aura.spell_id aura.spell_id = false)
    (hshape : aura.spell_effect.aura_type ≠ SPELL_AURA_MOD_SHAPESHIFT) :
    remove_colliding_effects c ⟨[(band_min aura, stacked aura n)], F⟩ aura =
      (true, ⟨[(band_min aura, stacked aura n)], F⟩, []) := by
  have hloop : colliding_loop c aura aura.source_spell.spell_entry.Name_enUS
      (c.rank aura.source_spell.spell_entry) [stacked aura n]
      ⟨[(band_min aura, stacked aura n)], F⟩ [] =
      (⟨[(band_min aura, stacked aura n)], F⟩, []) := by
    simp only [colliding_loop]
    split_ifs with h1 h2
    · exfalso
      rcases h1 with h1 | h1
      · exact absurd h1.1.2.2 (lt_irrefl _)
      · exact absurd h1.1 (by simp [hexcl])
    · exact absurd h2.2 hshape
    · rfl
  unfold remove_colliding_effects
  rw [if_neg (fun h => hmount h.1)]
  simp only [dictValues_cons, dictValues_nil]
  rw [hloop]

theorem check_aura_interrupts_stacked (c : Ctx) (aura : Aura) (F n : Nat)
    (hint : aura.interrupt_flags = 0) :
    check_aura_interrupts c negative_aura_event ⟨[(band_min aura, stacked aura n)], F⟩ =
      (⟨[(band_min aura, stacked aura n)], F⟩, []) := by
  have h := interrupt_auras_loop_inert c negative_aura_event rfl [stacked aura n]
    negative_aura_event.has_cast_spell ⟨[(band_min aura, stacked aura n)], F⟩ []
    (by
      intro a ha
      rcases List.mem_singleton.mp ha with rfl
      exact hint)
  exact h

theorem add_aura_harmful_stacked (c : Ctx) (aura : Aura) (F n : Nat)
    (hint : aura.interrupt_flags = 0) :
    (add_aura_harmful c ⟨[(band_min aura, stacked aura n)], F⟩ aura).1 =
      ⟨[(band_min aura, stacked aura n)], F⟩ := by
  unfold add_aura_harmful
  split_ifs <;> simp [check_aura_interrupts_stacked c aura F n hint]

theorem add_aura_refresh_stacked (c : Ctx) (aura : Aura) (F n : Nat)
    (hstack : aura.can_stack = true)
    (hdur : aura.spell_effect.remaining_duration = aura.spell_effect.total_duration)
    (hnmax : n < aura.max_stacks) :
    (add_aura_refresh c ⟨[(band_min aura, stacked aura n)], F⟩ aura (stacked aura n)).1 =
      ⟨[(band_min aura, stacked aura (n + 1))], F⟩ ∧
    (add_aura_refresh c ⟨[(band_min aura, stacked aura n)], F⟩ aura (stacked aura n)).2.1 =
      stacked aura (n + 1) := by
  have hrs : refresh_stack aura (stacked aura n) = stacked aura (n + 1) := by
    unfold refresh_stack
    rw [if_pos ⟨hstack, hnmax⟩]
    rfl
  have hrd : refresh_duration (stacked aura (n + 1)) = stacked aura (n + 1) := by
    unfold refresh_duration
    rw [stacked_spell_effect, ← hdur]
    rfl
  have hdict : dictSet [(band_min aura, stacked aura n)] (stacked aura n).index
      (stacked aura (n + 1)) = [(band_min aura, stacked aura (n + 1))] := by
    simp [dictSet]
  constructor
  · simp only [add_aura_refresh, hrs, hrd, write_aura_to_unit_refresh_state, hdict]
  · simp only [add_aura_refresh, hrs, hrd]
    rfl

theorem add_aura_stack_step (c : Ctx) (aura : Aura) (F n : Nat)
    (hstack : aura.can_stack = true)
    (hshape : aura.spell_effect.aura_type ≠ SPELL_AURA_MOD_SHAPESHIFT)
    (hmount : aura.spell_effect.aura_type ≠ SPELL_AURA_MOUNTED)
    (hexcl : c.are_colliding aura.spell_id aura.spell_id = false)
    (hint : aura.interrupt_flags = 0)
    (hdur : aura.spell_effect.remaining_duration = aura.spell_effect.total_duration)
    (hnmax : n < aura.max_stacks) :
    (add_aura c ⟨[(band_min aura, stacked aura n)], F⟩ aura).1 =
      ⟨[(band_min aura, stacked aura (n + 1))], F⟩ ∧
    (add_aura c ⟨[(band_min aura, stacked aura n)], F⟩ aura).2.1 = stacked aura (n + 1) := by
  have hca := can_apply_aura_stacked c aura F n hshape
  have hrc := remove_colliding_effects_stacked c aura F n hmount hexcl hshape
  have hha := add_aura_harmful_stacked c aura F n hint
  have hsimF := get_similar_stacked_singleton c aura F n false
  have href := add_aura_refresh_stacked c aura F n hstack hdur hnmax
  constructor
  · simp only [add_aura, hca, hrc, hha, hsimF, href.1]
    simp
  · simp only [add_aura, hca, hrc, hha, hsimF, href.2]
    simp

theorem add_aura_first (c : Ctx) (aura : Aura)
    (hmount : aura.spell_effect.aura_type ≠ SPELL_AURA_MOUNTED)
    (hstacks1 : aura.applied_stacks = 1) :
    (add_aura c initState aura).1.active_auras = [(band_min aura, stacked aura 1)] ∧
    (add_aura c initState aura).2.1 = stacked aura 1 := by
  have hca0 : can_apply_aura c initState aura = true := by
    unfold can_apply_aura
    rw [if_neg (fun h => absurd h.2 (by simp [get_auras_by_spell_id, initState]))]
    rfl
  have hrc0 : remove_colliding_effects c initState aura = (true, initState, []) := by
    unfold remove_colliding_effects
    rw [if_neg (fun h => hmount h.1)]
    rfl
  have hha0 : (add_aura_harmful c initState aura).1 = initState := by
    unfold add_aura_harmful
    split_ifs <;> rfl
  have hsim0 : get_similar_applied_auras c initState aura false false = [] := rfl
  have hidx0 : get_next_aura_index initState aura = band_min aura := by
    obtain ⟨k, hk⟩ : ∃ k, band_max aura - band_min aura = k + 1 :=
      ⟨band_max aura - band_min aura - 1, by have := band_min_lt_band_max aura; omega⟩
    unfold get_next_aura_index
    rw [hk]
    rfl
  have haux : ({ aura with index := band_min aura } : Aura) = stacked aura 1 := by
    unfold stacked
    rw [hstacks1]
  constructor
  · simp [add_aura, hca0, hrc0, hha0, hsim0, add_aura_insert, write_aura_to_unit_auras,
      hidx0, haux]
    rfl
  · simp [add_aura, hca0, hrc0, hha0, hsim0, add_aura_insert, hidx0, haux]

/-- C5: applying the same stackable aura `N` times (1 ≤ N ≤ max stacks) from
the same caster, starting from an empty registry, yields exactly one registry
entry in a single slot (the band's first) carrying stack count `N` and a full
remaining duration; each re-application is a refresh that never inserts the
candidate and copies the existing entry's slot and stack count onto the
candidate for reporting.  The hypotheses isolate the stacking path: the aura
is not shapeshift- or mounted-typed, is not exclusive with itself, carries no
interrupt flags, and a fresh candidate starts at stack 1 with full duration. -/
theorem C5_stacking (c : Ctx) (aura : Aura) (N : Nat)
    (hstack : aura.can_stack = true)
    (hshape : aura.spell_effect.aura_type ≠ SPELL_AURA_MOD_SHAPESHIFT)
    (hmount : aura.spell_effect.aura_type ≠ SPELL_AURA_MOUNTED)
    (hexcl : c.are_colliding aura.spell_id aura.spell_id = false)
    (hint : aura.interrupt_flags = 0)
    (hstacks1 : aura.applied_stacks = 1)
    (hdur : aura.spell_effect.remaining_duration = aura.spell_effect.total_duration)
    (hN1 : 1 ≤ N) (hNmax : N ≤ aura.max_stacks) :
    (apply_times c aura N).active_auras = [(band_min aura, stacked aura N)] ∧
    (stacked aura N).spell_effect.remaining_duration =
      (stacked aura N).spell_effect.total_duration ∧
    ∀ n, 1 ≤ n → n < N →
      (add_aura c (apply_times c aura n) aura).2.1 = stacked aura (n + 1) := by
  have main : ∀ n, 1 ≤ n → n ≤ aura.max_stacks →
      (apply_times c aura n).active_auras = [(band_min aura, stacked aura n)] := by
    intro n
    induction n with
    | zero => intro h _; omega
    | succ k ih =>
      intro _ hmax
      by_cases hk : k = 0
      · subst hk
        exact (add_aura_first c aura hmount hstacks1).1
      · have hprev := ih (by omega) (by omega)
        have hs : apply_times c aura k =
            ⟨[(band_min aura, stacked aura k)], (apply_times c aura k).current_flags⟩ := by
          cases he : apply_times c aura k with
          | mk a f =>
            rw [he] at hprev
            simp only [] at hprev
            rw [hprev]
        show (add_aura c (apply_times c aura k) aura).1.active_auras = _
        rw [hs]
        rw [(add_aura_stack_step c aura _ k hstack hshape hmount hexcl hint hdur
          (by omega)).1]
  refine ⟨main N hN1 hNmax, hdur, ?_⟩
  intro n hn1 hnN
  have hs : apply_times c aura n =
      ⟨[(band_min aura, stacked aura n)], (apply_times c aura n).current_flags⟩ := by
    have hprev := main n hn1 (by omega)
    cases he : apply_times c aura n with
    | mk a f =>
      rw [he] at hprev
      simp only [] at hprev
      rw [hprev]
  rw [hs]
  exact (add_aura_stack_step c aura _ n hstack hshape hmount hexcl hint hdur (by omega)).2

/-- Witness for C5: three applications of a 5-stack-capable aura yield one
entry at slot 0 with stack count 3, and the second and third applications
report the copied slot and incremented stacks. -/
theorem C5_stacking_witness :
    (apply_times ctx0 auraStack 3).active_auras = [(band_min auraStack, stacked auraStack 3)] ∧
    (stacked auraStack 3).spell_effect.remaining_duration =
      (stacked auraStack 3).spell_effect.total_duration ∧
    ∀ n, 1 ≤ n → n < 3 →
      (add_aura ctx0 (apply_times ctx0 auraStack n) auraStack).2.1 = stacked auraStack (n + 1) :=
  C5_stacking ctx0 auraStack 3 rfl (by decide) (by decide) rfl rfl rfl rfl (by decide) (by decide)

/-! ## C4: proc charges -/

theorem land_zero_right (n : Nat) : Nat.land n 0 = 0 := by
  unfold Nat.land Nat.bitwise
  by_cases h : n = 0 <;> simp [h]

theorem trigger_count_flags_ne_zero (cases : List (Nat × Bool)) (flags : Nat)
    (h : trigger_count cases flags = 1) : flags ≠ 0 := by
  intro hz
  subst hz
  have h0 : trigger_count cases 0 = 0 := by
    refine List.countP_eq_zero.mpr ?_
    intro fc _
    simp [land_zero_right]
  rw [h0] at h
  exact absurd h (by decide)

theorem proc_flags_loop_none (c : Ctx) (a : Aura) :
    ∀ (cases : List (Nat × Bool)) (charges : Int) (removed : Bool) (s : AuraManagerState)
      (evs : List Event),
      trigger_count cases a.proc_flags = 0 →
      proc_flags_loop c a cases charges removed s evs = (charges, removed, s, evs) := by
  intro cases
  induction cases with
  | nil => intro charges removed s evs _; rfl
  | cons fc rest ih =>
    obtain ⟨f, cond⟩ := fc
    intro charges removed s evs htc
    rw [trigger_count, List.countP_cons] at htc
    by_cases hp : (decide (Nat.land f a.proc_flags ≠ 0) && cond) = true
    · rw [if_pos hp] at htc
      omega
    · rw [if_neg hp] at htc
      have hrest : trigger_count rest a.proc_flags = 0 := by rw [trigger_count]; omega
      rw [proc_flags_loop, if_neg, ih _ _ _ _ hrest]
      rintro ⟨hl, hc, _⟩
      exact hp (by simp [hl, hc])

theorem proc_flags_loop_one (c : Ctx) (a : Aura) :
    ∀ (cases : List (Nat × Bool)) (charges : Int) (s : AuraManagerState) (evs : List Event),
      trigger_count cases a.proc_flags = 1 → charges ≠ 0 →
      proc_flags_loop c a cases charges false s evs =
        (charges - 1,
         decide (charges - 1 = 0),
         (if charges - 1 = 0 then (remove_aura c false s (setCharges a (charges - 1))).1 else s),
         evs ++ Event.effect_change (setCharges a (charges - 1)) false true ::
           (if charges - 1 = 0
            then (remove_aura c false s (setCharges a (charges - 1))).2 else [])) := by
  intro cases
  induction cases with
  | nil => intro charges s evs htc _; simp [trigger_count] at htc
  | cons fc rest ih =>
    obtain ⟨f, cond⟩ := fc
    intro charges s evs htc hch
    rw [trigger_count, List.countP_cons] at htc
    by_cases hp : (decide (Nat.land f a.proc_flags ≠ 0) && cond) = true
    · rw [if_pos hp] at htc
      have hrest : trigger_count rest a.proc_flags = 0 := by rw [trigger_count]; omega
      have hcond : Nat.land f a.proc_flags ≠ 0 ∧ cond = true := by simpa using hp
      rw [proc_flags_loop, if_pos ⟨hcond.1, hcond.2, hch⟩]
      simp only []
      by_cases hz : charges - 1 = 0
      · rw [if_pos hz, proc_flags_loop_none c a rest _ _ _ _ hrest]
        simp [hz]
      · rw [if_neg hz, proc_flags_loop_none c a rest _ _ _ _ hrest]
        simp [hz]
    · rw [if_neg hp] at htc
      have hrest : trigger_count rest a.proc_flags = 1 := by rw [trigger_count]; omega
      rw [proc_flags_loop, if_neg, ih _ _ _ hrest hch]
      rintro ⟨hl, hc, _⟩
      exact hp (by simp [hl, hc])

theorem remove_aura_lookup_ne (c : Ctx) (canceled : Bool) (s : AuraManagerState) (b : Aura)
    (K : Nat) (h : b.index ≠ K) :
    dictLookup (remove_aura c canceled s b).1.active_auras K = dictLookup s.active_auras K := by
  rw [remove_aura_auras]
  split_ifs
  · rfl
  · exact dictLookup_dictRemove_ne _ _ _ (fun hh => h hh.symm)

theorem remove_aura_lookup_self (c : Ctx) (canceled : Bool) (s : AuraManagerState) (b : Aura)
    (hnd : (dictKeys s.active_auras).Nodup) :
    dictLookup (remove_aura c canceled s b).1.active_auras b.index = none := by
  rw [remove_aura_auras]
  split_ifs with h
  · exact Option.isNone_iff_eq_none.mp h
  · exact dictLookup_dictRemove_self _ _ hnd

theorem proc_flags_loop_lookup_ne (c : Ctx) (b : Aura) (K : Nat) (h : b.index ≠ K) :
    ∀ (cases : List (Nat × Bool)) (charges : Int) (removed : Bool) (s : AuraManagerState)
      (evs : List Event),
      dictLookup (proc_flags_loop c b cases charges removed s evs).2.2.1.active_auras K =
        dictLookup s.active_auras K := by
  intro cases
  induction cases with
  | nil => intro charges removed s evs; rfl
  | cons fc rest ih =>
    obtain ⟨f, cond⟩ := fc
    intro charges removed s evs
    simp only [proc_flags_loop]
    split_ifs
    · rw [ih]
      exact remove_aura_lookup_ne c false s (setCharges b (charges - 1)) K h
    · rw [ih]
    · rw [ih]

theorem proc_auras_loop_lookup_ne (c : Ctx) (cases : List (Nat × Bool)) (K : Nat) :
    ∀ (others : List Aura) (s : AuraManagerState) (evs : List Event),
      (∀ b ∈ others, b.index ≠ K) →
      dictLookup (proc_auras_loop c cases others s evs).1.active_auras K =
        dictLookup s.active_auras K := by
  intro others
  induction others with
  | nil => intro s evs _; rfl
  | cons b rest ih =>
    intro s evs hall
    rw [proc_auras_loop]
    split_ifs with h0
    · exact ih _ _ (fun x hx => hall x (List.mem_cons_of_mem _ hx))
    · rw [ih _ _ (fun x hx => hall x (List.mem_cons_of_mem _ hx))]
      have hb := hall b (List.mem_cons_self b rest)
      by_cases hr : (proc_flags_loop c b cases b.proc_charges false s []).2.1 = true
      · rw [if_pos hr]
        exact proc_flags_loop_lookup_ne c b K hb _ _ _ _ _
      · rw [if_neg hr]
        simp only []
        rw [dictLookup_dictSet_ne _ _ _ _ (fun hh => hb hh.symm)]
        exact proc_flags_loop_lookup_ne c b K hb _ _ _ _ _

theorem proc_auras_loop_append (c : Ctx) (cases : List (Nat × Bool)) :
    ∀ (l₁ l₂ : List Aura) (s : AuraManagerState) (evs : List Event),
      proc_auras_loop c cases (l₁ ++ l₂) s evs =
        proc_auras_loop c cases l₂ (proc_auras_loop c cases l₁ s evs).1
          (proc_auras_loop c cases l₁ s evs).2 := by
  intro l₁
  induction l₁ with
  | nil => intro l₂ s evs; rfl
  | cons b rest ih =>
    intro l₂ s evs
    rw [List.cons_append, proc_auras_loop, proc_auras_loop]
    split_ifs with h0
    · exact ih _ _ _
    · exact ih _ _ _

theorem proc_auras_loop_events_prefix (c : Ctx) (cases : List (Nat × Bool)) :
    ∀ (l : List Aura) (s : AuraManagerState) (evs : List Event),
      ∃ t, (proc_auras_loop c cases l s evs).2 = evs ++ t := by
  intro l
  induction l with
  | nil => intro s evs; exact ⟨[], (List.append_nil evs).symm⟩
  | cons b rest ih =>
    intro s evs
    rw [proc_auras_loop]
    split_ifs with h0
    · exact ih _ _
    · obtain ⟨t, ht⟩ := ih
        (if (proc_flags_loop c b cases b.proc_charges false s []).2.1 then
          (proc_flags_loop c b cases b.proc_charges false s []).2.2.1
         else { (proc_flags_loop c b cases b.proc_charges false s []).2.2.1 with
            active_auras := dictSet
              (proc_flags_loop c b cases b.proc_charges false s []).2.2.1.active_auras b.index
              (setCharges b (proc_flags_loop c b cases b.proc_charges false s []).1) })
        (evs ++ (proc_flags_loop c b cases b.proc_charges false s []).2.2.2)
      exact ⟨(proc_flags_loop c b cases b.proc_charges false s []).2.2.2 ++ t, by
        rw [ht, List.append_assoc]⟩

theorem mem_proc_auras_loop_events (c : Ctx) (cases : List (Nat × Bool)) (l : List Aura)
    (s : AuraManagerState) (evs : List Event) (ev : Event) (h : ev ∈ evs) :
    ev ∈ (proc_auras_loop c cases l s evs).2 := by
  obtain ⟨t, ht⟩ := proc_auras_loop_events_prefix c cases l s evs
  rw [ht]
  exact List.mem_append_left _ h

/-- One proc evaluation acting on a registered aura with exactly one
triggering table row: the charge counter is decremented, the Effect Handler
sees the already-decremented aura in proc mode, and the aura is removed from
its slot exactly when the counter reaches 0. -/
theorem check_aura_procs_step (c : Ctx) (e : ProcEvent) (s : AuraManagerState) (k : Nat)
    (a : Aura) (hinv : SlotInvariant s) (hmem : (k, a) ∈ s.active_auras)
    (htc : trigger_count (proc_flag_cases e) a.proc_flags = 1)
    (hch : a.proc_charges ≠ 0) :
    dictLookup (check_aura_procs c e s).1.active_auras k =
      (if a.proc_charges - 1 = 0 then none else some (setCharges a (a.proc_charges - 1))) ∧
    Event.effect_change (setCharges a (a.proc_charges - 1)) false true ∈
      (check_aura_procs c e s).2 := by
  obtain ⟨d₁, d₂, hd⟩ := List.append_of_mem hmem
  obtain ⟨ha, _, _⟩ := hinv.2 k a hmem
  have hkeys := hinv.1
  have hksplit : dictKeys s.active_auras = dictKeys d₁ ++ k :: dictKeys d₂ := by
    rw [hd]
    simp [dictKeys]
  have hknotin₁ : k ∉ dictKeys d₁ := by
    rw [hksplit] at hkeys
    rw [List.nodup_append] at hkeys
    intro hk
    exact hkeys.2.2 hk (List.mem_cons_self _ _)
  have hknotin₂ : k ∉ dictKeys d₂ := by
    rw [hksplit] at hkeys
    rw [List.nodup_append] at hkeys
    exact (List.nodup_cons.mp hkeys.2.1).1
  have hne₁ : ∀ b ∈ dictValues d₁, b.index ≠ k := by
    intro b hb
    obtain ⟨k', hk'⟩ := (mem_dictValues_iff _ _).mp hb
    have hmem' : (k', b) ∈ s.active_auras := by
      rw [hd]; exact List.mem_append_left _ hk'
    obtain ⟨hbi, _, _⟩ := hinv.2 k' b hmem'
    rw [hbi]
    intro hkk
    subst hkk
    exact hknotin₁ (by simpa [dictKeys] using List.mem_map_of_mem Prod.fst hk')
  have hne₂ : ∀ b ∈ dictValues d₂, b.index ≠ k := by
    intro b hb
    obtain ⟨k', hk'⟩ := (mem_dictValues_iff _ _).mp hb
    have hmem' : (k', b) ∈ s.active_auras := by
      rw [hd]
      exact List.mem_append_right _ (List.mem_cons_of_mem _ hk')
    obtain ⟨hbi, _, _⟩ := hinv.2 k' b hmem'
    rw [hbi]
    intro hkk
    subst hkk
    exact hknotin₂ (by simpa [dictKeys] using List.mem_map_of_mem Prod.fst hk')
  have hvals : dictValues s.active_auras = dictValues d₁ ++ a :: dictValues d₂ := by
    rw [hd, dictValues_append, dictValues_cons]
  have hsub₁ : ∀ b ∈ dictValues d₁, b ∈ dictValues s.active_auras := by
    intro b hb
    rw [hvals]
    exact List.mem_append_left _ hb
  have hinv₁ : SlotInvariant (proc_auras_loop c (proc_flag_cases e) (dictValues d₁) s []).1 :=
    slotInvariant_proc_auras_loop c (proc_flag_cases e) (dictValues d₁) s [] hinv
      (fun b hb => mem_values_inband s hinv b (hsub₁ b hb))
  have hS₁k : dictLookup
      (proc_auras_loop c (proc_flag_cases e) (dictValues d₁) s []).1.active_auras k = some a := by
    rw [proc_auras_loop_lookup_ne c _ k _ _ _ hne₁]
    exact dictLookup_eq_some_of_mem _ _ _ hkeys hmem
  have hfl : ¬a.proc_flags = 0 := trigger_count_flags_ne_zero _ _ htc
  have hone := proc_flags_loop_one c a (proc_flag_cases e) a.proc_charges
    (proc_auras_loop c (proc_flag_cases e) (dictValues d₁) s []).1 [] htc hch
  have hstep : check_aura_procs c e s =
      proc_auras_loop c (proc_flag_cases e) (a :: dictValues d₂)
        (proc_auras_loop c (proc_flag_cases e) (dictValues d₁) s []).1
        (proc_auras_loop c (proc_flag_cases e) (dictValues d₁) s []).2 := by
    unfold check_aura_procs
    rw [hvals, proc_auras_loop_append]
  rw [hstep, proc_auras_loop, if_neg hfl]
  simp only [hone]
  constructor
  · rw [proc_auras_loop_lookup_ne c _ k _ _ _ hne₂]
    by_cases hz : a.proc_charges - 1 = 0
    · rw [if_pos hz]
      have hbt : (decide (a.proc_charges - 1 = 0)) = true := by
        rw [hz]
        rfl
      rw [hbt, if_pos rfl, if_pos hz]
      have hrs := remove_aura_lookup_self c false
        (proc_auras_loop c (proc_flag_cases e) (dictValues d₁) s []).1
        (setCharges a (a.proc_charges - 1)) hinv₁.1
      rw [show (setCharges a (a.proc_charges - 1)).index = k from ha] at hrs
      exact hrs
    · rw [if_neg hz]
      have hbf : ¬(decide (a.proc_charges - 1 = 0)) = true := by
        simp [hz]
      rw [if_neg hbf, if_neg hz]
      simp only []
      rw [ha]
      exact dictLookup_dictSet_self _ _ _
  · refine mem_proc_auras_loop_events c (proc_flag_cases e) (dictValues d₂) _ _ _ ?_
    refine List.mem_append_right _ ?_
    simp

/-- C4: an active aura with charge counter `C > 0` hit by the same qualifying
proc event (exactly one matching table row) keeps its slot with counter
`C - n` after `n < C` evaluations, is removed from its slot exactly after the
`C`-th evaluation and not before; on each trigger the Effect Handler is
invoked in proc mode with the already-decremented counter; and an aura whose
counter is −1 (unlimited) is never removed by the proc evaluator — its counter
just keeps falling past −2, because only exact equality with 0 stops
triggering. -/
theorem C4_proc_exhaustion (c : Ctx) (e : ProcEvent) (s : AuraManagerState) (k : Nat)
    (a : Aura) (C : Nat)
    (hinv : SlotInvariant s)
    (hmem : (k, a) ∈ s.active_auras)
    (hC : a.proc_charges = (C : Int))
    (hCpos : 0 < C)
    (htc : trigger_count (proc_flag_cases e) a.proc_flags = 1) :
    (∀ n, n < C → dictLookup (iterate_procs c e n s).active_auras k =
        some (setCharges a ((C : Int) - (n : Int)))) ∧
    dictLookup (iterate_procs c e C s).active_auras k = none ∧
    (∀ n, n < C →
      Event.effect_change (setCharges a ((C : Int) - (n : Int) - 1)) false true ∈
        (check_aura_procs c e (iterate_procs c e n s)).2) ∧
    (∀ (s2 : AuraManagerState) (k2 : Nat) (b : Aura), SlotInvariant s2 →
      (k2, b) ∈ s2.active_auras → b.proc_charges = -1 →
      trigger_count (proc_flag_cases e) b.proc_flags = 1 →
      dictLookup (check_aura_procs c e s2).1.active_auras k2 = some (setCharges b (-2))) := by
  have hsetk : ∀ z : Int, (setCharges a z).index = a.index := fun _ => rfl
  have main : ∀ n, n < C → SlotInvariant (iterate_procs c e n s) ∧
      dictLookup (iterate_procs c e n s).active_auras k =
        some (setCharges a ((C : Int) - (n : Int))) := by
    intro n
    induction n with
    | zero =>
      intro _
      refine ⟨hinv, ?_⟩
      have hsa : setCharges a ((C : Int) - ((0 : Nat) : Int)) = a := by
        rw [show ((C : Int) - ((0 : Nat) : Int)) = (C : Int) from by push_cast; ring, ← hC]
        rfl
      rw [hsa]
      exact dictLookup_eq_some_of_mem _ _ _ hinv.1 hmem
    | succ n ih =>
      intro hn
      obtain ⟨hinvn, hlk⟩ := ih (by omega)
      have hmemn := mem_of_dictLookup_eq_some _ _ _ hlk
      have hchn : (setCharges a ((C : Int) - (n : Int))).proc_charges ≠ 0 := by
        show (C : Int) - (n : Int) ≠ 0
        omega
      have htcn : trigger_count (proc_flag_cases e)
          (setCharges a ((C : Int) - (n : Int))).proc_flags = 1 := htc
      have hstep := check_aura_procs_step c e (iterate_procs c e n s) k
        (setCharges a ((C : Int) - (n : Int))) hinvn hmemn htcn hchn
      have hnz : (setCharges a ((C : Int) - (n : Int))).proc_charges - 1 ≠ 0 := by
        show (C : Int) - (n : Int) - 1 ≠ 0
        omega
      refine ⟨slotInvariant_check_aura_procs c e _ hinvn, ?_⟩
      show dictLookup (check_aura_procs c e (iterate_procs c e n s)).1.active_auras k = _
      rw [hstep.1, if_neg hnz]
      congr 1
      show setCharges a ((C : Int) - (n : Int) - 1) = setCharges a ((C : Int) - ((n : Int) + 1))
      rw [show (C : Int) - (n : Int) - 1 = (C : Int) - ((n : Int) + 1) from by ring]
  refine ⟨fun n hn => (main n hn).2, ?_, ?_, ?_⟩
  · obtain ⟨D, hD⟩ : ∃ D, C = D + 1 := ⟨C - 1, by omega⟩
    subst hD
    obtain ⟨hinvn, hlk⟩ := main D (by omega)
    have hmemn := mem_of_dictLookup_eq_some _ _ _ hlk
    have hchn : (setCharges a ((D + 1 : Nat) - (D : Int))).proc_charges ≠ 0 := by
      show ((D + 1 : Nat) : Int) - (D : Int) ≠ 0
      push_cast
      omega
    have hstep := check_aura_procs_step c e (iterate_procs c e D s) k
      (setCharges a (((D + 1 : Nat) : Int) - (D : Int))) hinvn hmemn htc hchn
    have hz : (setCharges a (((D + 1 : Nat) : Int) - (D : Int))).proc_charges - 1 = 0 := by
      show ((D + 1 : Nat) : Int) - (D : Int) - 1 = 0
      push_cast
      ring
    show dictLookup (check_aura_procs c e (iterate_procs c e D s)).1.active_auras k = none
    rw [hstep.1, if_pos hz]
  · intro n hn
    obtain ⟨hinvn, hlk⟩ := main n hn
    have hmemn := mem_of_dictLookup_eq_some _ _ _ hlk
    have hchn : (setCharges a ((C : Int) - (n : Int))).proc_charges ≠ 0 := by
      show (C : Int) - (n : Int) ≠ 0
      omega
    have hstep := check_aura_procs_step c e (iterate_procs c e n s) k
      (setCharges a ((C : Int) - (n : Int))) hinvn hmemn htc hchn
    have := hstep.2
    rw [show setCharges (setCharges a ((C : Int) - (n : Int)))
        ((setCharges a ((C : Int) - (n : Int))).proc_charges - 1) =
        setCharges a ((C : Int) - (n : Int) - 1) from rfl] at this
    exact this
  · intro s2 k2 b hinv2 hmem2 hneg htc2
    have hch2 : b.proc_charges ≠ 0 := by rw [hneg]; decide
    have hstep := check_aura_procs_step c e s2 k2 b hinv2 hmem2 htc2 hch2
    have hz : ¬b.proc_charges - 1 = 0 := by rw [hneg]; decide
    rw [hstep.1, if_neg hz, hneg]
    rfl

/-- Witness for C4: a 3-charge kill-proc aura survives two kill events with
counters 2 and 1, is removed by the third, and an unlimited (−1) aura is
retained at −2 after a trigger. -/
theorem C4_proc_exhaustion_witness :
    (∀ n, n < 3 → dictLookup (iterate_procs ctx0 killEvent n ⟨[(0, auraProc)], 0⟩).active_auras 0 =
        some (setCharges auraProc ((3 : Int) - (n : Int)))) ∧
    dictLookup (iterate_procs ctx0 killEvent 3 ⟨[(0, auraProc)], 0⟩).active_auras 0 = none ∧
    (∀ n, n < 3 →
      Event.effect_change (setCharges auraProc ((3 : Int) - (n : Int) - 1)) false true ∈
        (check_aura_procs ctx0 killEvent (iterate_procs ctx0 killEvent n ⟨[(0, auraProc)], 0⟩)).2) ∧
    (∀ (s2 : AuraManagerState) (k2 : Nat) (b : Aura), SlotInvariant s2 →
      (k2, b) ∈ s2.active_auras → b.proc_charges = -1 →
      trigger_count (proc_flag_cases killEvent) b.proc_flags = 1 →
      dictLookup (check_aura_procs ctx0 killEvent s2).1.active_auras k2 =
        some (setCharges b (-2))) := by
  refine C4_proc_exhaustion ctx0 killEvent ⟨[(0, auraProc)], 0⟩ 0 auraProc 3 ?_
    (by decide) (by decide) (by decide) (by decide)
  constructor
  · decide
  · intro k aura hm
    rcases List.mem_singleton.mp hm with h
    injection h with h1 h2
    subst h1
    subst h2
    refine ⟨by decide, by decide, by decide⟩

/-! ## C7: stealth masking of the cast interrupt -/

theorem remove_aura_state_absent (c : Ctx) (canceled : Bool) (s : AuraManagerState) (b : Aura)
    (h : dictLookup s.active_auras b.index = none) : (remove_aura c canceled s b).1 = s := by
  unfold remove_aura
  rw [h]
  rfl

theorem interrupt_flags_loop_no_match (c : Ctx) (b : Aura) :
    ∀ (cases : List (Nat × Bool)) (s : AuraManagerState) (evs : List Event),
      (∀ fc ∈ cases, ¬(Nat.land b.interrupt_flags fc.1 ≠ 0 ∧ fc.2 = true)) →
      interrupt_flags_loop c b cases s evs = (s, evs) := by
  intro cases
  induction cases with
  | nil => intro s evs _; rfl
  | cons fc rest ih =>
    obtain ⟨flag, cond⟩ := fc
    intro s evs hall
    rw [interrupt_flags_loop, if_neg (hall (flag, cond) (List.mem_cons_self _ _))]
    exact ih s evs (fun x hx => hall x (List.mem_cons_of_mem _ hx))

theorem interrupt_flags_loop_state_absent (c : Ctx) (b : Aura) :
    ∀ (cases : List (Nat × Bool)) (s : AuraManagerState) (evs : List Event),
      dictLookup s.active_auras b.index = none →
      (interrupt_flags_loop c b cases s evs).1 = s := by
  intro cases
  induction cases with
  | nil => intro s evs _; rfl
  | cons fc rest ih =>
    obtain ⟨flag, cond⟩ := fc
    intro s evs h
    rw [interrupt_flags_loop]
    split_ifs with h1
    · simp only []
      rw [show (remove_aura c false s b).1 = s from remove_aura_state_absent c false s b h]
      exact ih _ _ h
    · exact ih _ _ h

theorem interrupt_flags_loop_removes (c : Ctx) (b : Aura) :
    ∀ (cases : List (Nat × Bool)) (s : AuraManagerState) (evs : List Event),
      (dictKeys s.active_auras).Nodup →
      (∃ fc ∈ cases, Nat.land b.interrupt_flags fc.1 ≠ 0 ∧ fc.2 = true) →
      dictLookup (interrupt_flags_loop c b cases s evs).1.active_auras b.index = none := by
  intro cases
  induction cases with
  | nil => intro s evs _ hex; simp at hex
  | cons fc rest ih =>
    obtain ⟨flag, cond⟩ := fc
    intro s evs hnd hex
    rw [interrupt_flags_loop]
    by_cases hmatch : Nat.land b.interrupt_flags flag ≠ 0 ∧ cond = true
    · rw [if_pos hmatch]
      have hnone := remove_aura_lookup_self c false s b hnd
      rw [interrupt_flags_loop_state_absent c b rest _ _ hnone]
      exact hnone
    · rw [if_neg hmatch]
      refine ih s evs hnd ?_
      rcases hex with ⟨fc', hfc', hp⟩
      rcases List.mem_cons.mp hfc' with h | h
      · exfalso
        rw [h] at hp
        exact hmatch hp
      · exact ⟨fc', h, hp⟩

theorem interrupt_flags_loop_lookup_ne (c : Ctx) (b : Aura) (K : Nat) (h : b.index ≠ K) :
    ∀ (cases : List (Nat × Bool)) (s : AuraManagerState) (evs : List Event),
      dictLookup (interrupt_flags_loop c b cases s evs).1.active_auras K =
        dictLookup s.active_auras K := by
  intro cases
  induction cases with
  | nil => intro s evs; rfl
  | cons fc rest ih =>
    obtain ⟨flag, cond⟩ := fc
    intro s evs
    rw [interrupt_flags_loop]
    split_ifs with h1
    · rw [ih]
      exact remove_aura_lookup_ne c false s b K h
    · exact ih _ _

theorem interrupt_auras_loop_append (c : Ctx) (e : InterruptEvent) :
    ∀ (l₁ l₂ : List Aura) (cond : Bool) (s : AuraManagerState) (evs : List Event),
      interrupt_auras_loop c e (l₁ ++ l₂) cond s evs =
        interrupt_auras_loop c e l₂ (cast_condition_after c e cond l₁)
          (interrupt_auras_loop c e l₁ cond s evs).1
          (interrupt_auras_loop c e l₁ cond s evs).2 := by
  intro l₁
  induction l₁ with
  | nil => intro l₂ cond s evs; rfl
  | cons a rest ih =>
    intro l₂ cond s evs
    rw [List.cons_append]
    simp only [interrupt_auras_loop, cast_condition_after]
    split_ifs
    · exact ih _ _ _ _
    · exact ih _ _ _ _
    · exact ih _ _ _ _

theorem interrupt_auras_loop_lookup_ne (c : Ctx) (e : InterruptEvent) (K : Nat) :
    ∀ (auras : List Aura) (cond : Bool) (s : AuraManagerState) (evs : List Event),
      (∀ b ∈ auras, b.index ≠ K) →
      dictLookup (interrupt_auras_loop c e auras cond s evs).1.active_auras K =
        dictLookup s.active_auras K := by
  intro auras
  induction auras with
  | nil => intro cond s evs _; rfl
  | cons b rest ih =>
    intro cond s evs hall
    have hb := hall b (List.mem_cons_self b rest)
    have htail := fun x hx => hall x (List.mem_cons_of_mem _ hx)
    rw [interrupt_auras_loop]
    split_ifs
    · rw [ih _ _ _ htail]
      exact remove_aura_lookup_ne c false s b K hb
    all_goals
      simp only []
      rw [ih _ _ _ htail]
      exact interrupt_flags_loop_lookup_ne c b K hb _ _ _

theorem cast_condition_after_false (c : Ctx) (e : InterruptEvent) :
    ∀ (l : List Aura), cast_condition_after c e false l = false := by
  intro l
  induction l with
  | nil => rfl
  | cons a rest ih =>
    simp only [cast_condition_after]
    split_ifs
    · exact ih
    · exact ih
    · exact ih

theorem cast_condition_after_no_stealth (c : Ctx) (e : InterruptEvent) :
    ∀ (l : List Aura) (cond : Bool),
      (∀ x ∈ l, x.spell_effect.aura_type ≠ SPELL_AURA_MOD_STEALTH) →
      cast_condition_after c e cond l = cond := by
  intro l
  induction l with
  | nil => intro cond _; rfl
  | cons a rest ih =>
    intro cond hall
    simp only [cast_condition_after]
    split_ifs with h1 h2
    · exact ih _ (fun x hx => hall x (List.mem_cons_of_mem _ hx))
    · exact absurd h2.1 (hall a (List.mem_cons_self a rest))
    · exact ih _ (fun x hx => hall x (List.mem_cons_of_mem _ hx))

theorem cast_condition_after_stealth (c : Ctx) (e : InterruptEvent)
    (hcast : e.has_cast_spell = true) (hnb : e.cast_breaks_stealth = false) :
    ∀ (l : List Aura) (cond : Bool),
      (∃ x ∈ l, x.spell_effect.aura_type = SPELL_AURA_MOD_STEALTH ∧
        ¬(x.source_spell.refreshment = true ∧ e.changed_stand_state = true ∧
            c.stand_state ≠ UNIT_SITTING)) →
      cast_condition_after c e cond l = false := by
  intro l
  induction l with
  | nil => intro cond hex; simp at hex
  | cons a rest ih =>
    intro cond hex
    simp only [cast_condition_after]
    rcases hex with ⟨x, hx, hst, hnr⟩
    rcases List.mem_cons.mp hx with rfl | hx'
    · rw [if_neg hnr, if_pos ⟨hst, hcast, hnb⟩]
      exact cast_condition_after_false c e rest
    · split_ifs
      · exact ih _ ⟨x, hx', hst, hnr⟩
      · exact cast_condition_after_false c e rest
      · exact ih _ ⟨x, hx', hst, hnr⟩

/-- Facts about a registry entry exposed by a split of the dictionary, under
the slot invariant: the aura records its key, and every other entry of the
split carries a different slot index. -/
theorem split_facts (s : AuraManagerState) (d₁ d₂ : List (Nat × Aura)) (k : Nat) (a : Aura)
    (hinv : SlotInvariant s) (hd : s.active_auras = d₁ ++ (k, a) :: d₂) :
    a.index = k ∧ (∀ b ∈ dictValues d₁, b.index ≠ k) ∧ (∀ b ∈ dictValues d₂, b.index ≠ k) := by
  have hmem : (k, a) ∈ s.active_auras := by
    rw [hd]
    exact List.mem_append_right _ (List.mem_cons_self _ _)
  obtain ⟨ha, _, _⟩ := hinv.2 k a hmem
  have hkeys := hinv.1
  have hksplit : dictKeys s.active_auras = dictKeys d₁ ++ k :: dictKeys d₂ := by
    rw [hd]
    simp [dictKeys]
  have hknotin₁ : k ∉ dictKeys d₁ := by
    rw [hksplit] at hkeys
    rw [List.nodup_append] at hkeys
    intro hk
    exact hkeys.2.2 hk (List.mem_cons_self _ _)
  have hknotin₂ : k ∉ dictKeys d₂ := by
    rw [hksplit] at hkeys
    rw [List.nodup_append] at hkeys
    exact (List.nodup_cons.mp hkeys.2.1).1
  refine ⟨ha, ?_, ?_⟩
  · intro b hb
    obtain ⟨k', hk'⟩ := (mem_dictValues_iff _ _).mp hb
    have hmem' : (k', b) ∈ s.active_auras := by
      rw [hd]
      exact List.mem_append_left _ hk'
    obtain ⟨hbi, _, _⟩ := hinv.2 k' b hmem'
    rw [hbi]
    intro hkk
    subst hkk
    exact hknotin₁ (by simpa [dictKeys] using List.mem_map_of_mem Prod.fst hk')
  · intro b hb
    obtain ⟨k', hk'⟩ := (mem_dictValues_iff _ _).mp hb
    have hmem' : (k', b) ∈ s.active_auras := by
      rw [hd]
      exact List.mem_append_right _ (List.mem_cons_of_mem _ hk')
    obtain ⟨hbi, _, _⟩ := hinv.2 k' b hmem'
    rw [hbi]
    intro hkk
    subst hkk
    exact hknotin₂ (by simpa [dictKeys] using List.mem_map_of_mem Prod.fst hk')

/-- C7 counterexample to order-independence: with the stealth aura scanned
first, the later non-stealth aura whose mask holds the cast flag survives a
cast that does not break stealth — the mask stays overwritten for the rest of
the scan — while the claim requires it to be removed regardless of order. -/
theorem C7_counterexample_order_dependence :
    stealthAura.spell_effect.aura_type = SPELL_AURA_MOD_STEALTH ∧
    castBreakableAura.spell_effect.aura_type ≠ SPELL_AURA_MOD_STEALTH ∧
    Nat.land castBreakableAura.interrupt_flags AURA_INTERRUPT_FLAG_CAST ≠ 0 ∧
    castNoStealthBreakEvent.has_cast_spell = true ∧
    castNoStealthBreakEvent.cast_breaks_stealth = false ∧
    (1, castBreakableAura) ∈ s7.active_auras ∧
    dictLookup (check_aura_interrupts ctx0 castNoStealthBreakEvent s7).1.active_auras 1 =
      some castBreakableAura := by
  decide

/-- C7 (amended): during an interrupt evaluation for a cast declared not to
break stealth, every stealth-type aura that no other satisfied condition (or
the refreshment special case) removes survives, wherever it is scanned; a
non-stealth aura whose mask holds the cast flag is removed when it is scanned
with no stealth-type aura before it; but the cast condition stays masked from
the first stealth-type aura onward, so an aura scanned after one survives the
cast flag (when nothing else interrupts it) — removal of cast-flagged
non-stealth auras is therefore order-dependent, not order-independent. -/
theorem C7_stealth_cast_masking (c : Ctx) (e : InterruptEvent) (s : AuraManagerState)
    (hinv : SlotInvariant s)
    (hcast : e.has_cast_spell = true)
    (hnb : e.cast_breaks_stealth = false) :
    (∀ (k : Nat) (st : Aura), (k, st) ∈ s.active_auras →
      st.spell_effect.aura_type = SPELL_AURA_MOD_STEALTH →
      not_otherwise_interrupted c e st →
      dictLookup (check_aura_interrupts c e s).1.active_auras k = some st) ∧
    (∀ (d₁ d₂ : List (Nat × Aura)) (k : Nat) (b : Aura),
      s.active_auras = d₁ ++ (k, b) :: d₂ →
      (∀ p ∈ d₁, p.2.spell_effect.aura_type ≠ SPELL_AURA_MOD_STEALTH) →
      b.spell_effect.aura_type ≠ SPELL_AURA_MOD_STEALTH →
      Nat.land b.interrupt_flags AURA_INTERRUPT_FLAG_CAST ≠ 0 →
      ¬(b.source_spell.refreshment = true ∧ e.changed_stand_state = true ∧
          c.stand_state ≠ UNIT_SITTING) →
      dictLookup (check_aura_interrupts c e s).1.active_auras k = none) ∧
    (∀ (d₁ d₂ : List (Nat × Aura)) (k : Nat) (b : Aura),
      s.active_auras = d₁ ++ (k, b) :: d₂ →
      (∃ p ∈ d₁, p.2.spell_effect.aura_type = SPELL_AURA_MOD_STEALTH ∧
        ¬(p.2.source_spell.refreshment = true ∧ e.changed_stand_state = true ∧
            c.stand_state ≠ UNIT_SITTING)) →
      not_otherwise_interrupted c e b →
      dictLookup (check_aura_interrupts c e s).1.active_auras k = some b) := by
  refine ⟨?_, ?_, ?_⟩
  · intro k st hmem hstealth hnoi
    obtain ⟨d₁, d₂, hd⟩ := List.append_of_mem hmem
    obtain ⟨ha, hne₁, hne₂⟩ := split_facts s d₁ d₂ k st hinv hd
    have hvals : dictValues s.active_auras = dictValues d₁ ++ st :: dictValues d₂ := by
      rw [hd, dictValues_append, dictValues_cons]
    unfold check_aura_interrupts
    rw [hvals, interrupt_auras_loop_append, interrupt_auras_loop, if_neg hnoi.1]
    simp only []
    rw [if_pos ⟨hstealth, hcast, hnb⟩,
      interrupt_flags_loop_no_match c st _ _ _ hnoi.2,
      interrupt_auras_loop_lookup_ne c e k _ _ _ _ hne₂]
    simp only []
    rw [interrupt_auras_loop_lookup_ne c e k _ _ _ _ hne₁]
    rw [← ha] at hmem ⊢
    exact dictLookup_eq_some_of_mem _ _ _ hinv.1 hmem
  · intro d₁ d₂ k b hd hnost hbns hflag hnref
    obtain ⟨ha, hne₁, hne₂⟩ := split_facts s d₁ d₂ k b hinv hd
    have hinv₁ : SlotInvariant
        (interrupt_auras_loop c e (dictValues d₁) e.has_cast_spell s []).1 :=
      slotInvariant_interrupt_auras_loop c e _ _ s [] hinv
    have hvals : dictValues s.active_auras = dictValues d₁ ++ b :: dictValues d₂ := by
      rw [hd, dictValues_append, dictValues_cons]
    have hc1 : cast_condition_after c e e.has_cast_spell (dictValues d₁) =
        e.has_cast_spell := by
      refine cast_condition_after_no_stealth c e _ _ ?_
      intro x hx
      obtain ⟨k', hk'⟩ := (mem_dictValues_iff _ _).mp hx
      exact hnost (k', x) hk'
    unfold check_aura_interrupts
    rw [hvals, interrupt_auras_loop_append, hc1, interrupt_auras_loop, if_neg hnref]
    simp only []
    rw [if_neg (fun h => hbns h.1)]
    have hrm := interrupt_flags_loop_removes c b (interrupt_flag_cases c e e.has_cast_spell)
      (interrupt_auras_loop c e (dictValues d₁) e.has_cast_spell s []).1 [] hinv₁.1
      ⟨(AURA_INTERRUPT_FLAG_CAST, e.has_cast_spell),
        by simp [interrupt_flag_cases], hflag, hcast⟩
    rw [interrupt_auras_loop_lookup_ne c e k _ _ _ _ hne₂, ← ha]
    exact hrm
  · intro d₁ d₂ k b hd hstealth₁ hnoi
    obtain ⟨ha, hne₁, hne₂⟩ := split_facts s d₁ d₂ k b hinv hd
    have hmem : (k, b) ∈ s.active_auras := by
      rw [hd]
      exact List.mem_append_right _ (List.mem_cons_self _ _)
    have hvals : dictValues s.active_auras = dictValues d₁ ++ b :: dictValues d₂ := by
      rw [hd, dictValues_append, dictValues_cons]
    have hc1 : cast_condition_after c e e.has_cast_spell (dictValues d₁) = false := by
      refine cast_condition_after_stealth c e hcast hnb _ _ ?_
      rcases hstealth₁ with ⟨p, hp, hst, hnr⟩
      refine ⟨p.2, ?_, hst, hnr⟩
      exact (mem_dictValues_iff _ _).mpr ⟨p.1, by simpa using hp⟩
    unfold check_aura_interrupts
    rw [hvals, interrupt_auras_loop_append, hc1, interrupt_auras_loop, if_neg hnoi.1]
    simp only []
    have hce : (if b.spell_effect.aura_type = SPELL_AURA_MOD_STEALTH ∧
        e.has_cast_spell = true ∧ e.cast_breaks_stealth = false
        then false else false) = false := by
      split_ifs <;> rfl
    rw [hce, interrupt_flags_loop_no_match c b _ _ _ hnoi.2,
      interrupt_auras_loop_lookup_ne c e k _ _ _ _ hne₂]
    simp only []
    rw [interrupt_auras_loop_lookup_ne c e k _ _ _ _ hne₁]
    rw [← ha] at hmem ⊢
    exact dictLookup_eq_some_of_mem _ _ _ hinv.1 hmem

/-- Witness for the amended C7 on concrete registries: the stealth aura and
the cast-flagged aura scanned after it both survive; the cast-flagged aura
alone (no stealth scanned before it) is removed. -/
theorem C7_stealth_cast_masking_witness :
    dictLookup (check_aura_interrupts ctx0 castNoStealthBreakEvent s7).1.active_auras 0 =
      some stealthAura ∧
    dictLookup (check_aura_interrupts ctx0 castNoStealthBreakEvent s7).1.active_auras 1 =
      some castBreakableAura ∧
    dictLookup (check_aura_interrupts ctx0 castNoStealthBreakEvent s7b).1.active_auras 1 =
      none := by
  have hinv7 : SlotInvariant s7 := by
    refine ⟨by decide, ?_⟩
    intro k aura hm
    rcases List.mem_cons.mp hm with h | hm2
    · injection h with h1 h2
      subst h1
      subst h2
      exact ⟨rfl, by decide, by decide⟩
    · rcases List.mem_singleton.mp hm2 with h
      injection h with h1 h2
      subst h1
      subst h2
      exact ⟨rfl, by decide, by decide⟩
  have hinv7b : SlotInvariant s7b := by
    refine ⟨by decide, ?_⟩
    intro k aura hm
    rcases List.mem_singleton.mp hm with h
    injection h with h1 h2
    subst h1
    subst h2
    exact ⟨rfl, by decide, by decide⟩
  have h7 := C7_stealth_cast_masking ctx0 castNoStealthBreakEvent s7 hinv7 rfl rfl
  have h7b := C7_stealth_cast_masking ctx0 castNoStealthBreakEvent s7b hinv7b rfl rfl
  refine ⟨?_, ?_, ?_⟩
  · exact h7.1 0 stealthAura (by decide) rfl (by unfold not_otherwise_interrupted; decide)
  · exact h7.2.2 [(0, stealthAura)] [] 1 castBreakableAura rfl
      ⟨(0, stealthAura), by decide, rfl, by decide⟩
      (by unfold not_otherwise_interrupted; decide)
  · exact h7b.2.1 [] [] 1 castBreakableAura rfl (by simp) (by decide) (by decide) (by decide)

end AuraVerify
